import Mathlib

/-!
Verification of the IoT sensor-monitoring repository (linked-list sensor
accumulators, polymorphic sensors, registry, serial line protocol).

Shallow embedding conventions:
* C strings (`char*`) are modelled as `List Char`; `strcmp` equality is list
  equality.
* `ListaSensor<T>` (ListaSensor.h) is modelled by the sequence of node values
  reachable from `cabeza` together with the `int tamaño` counter.
* The template is instantiated at `float` (modelled exactly by `ℚ`: every
  operation the verified claims touch — ordering of parsed decimal literals,
  the sum of a single element, division by one — is exact in IEEE float as
  well) and at `int` (modelled by `ℤ`; C++ `int` division truncates toward
  zero, i.e. `Int.tdiv`).
* Console output is not part of the functional model; where a claim speaks
  about a diagnostic, the exact diagnostic string printed by the branch taken
  is recovered by a dedicated `diagnostico…` function translated from the
  same source branches.
* The deep-copy claims (copy constructor / `operator=`) are about node
  aliasing, so they are settled against an explicit heap model of the node
  store (addresses, `siguiente` pointers, allocation counter) further below.
-/

namespace SensoresIoT

/-- Pure model of `ListaSensor<T>`: `elems` is the chain of `dato` values
reachable from `cabeza` (in link order), `tamano` mirrors the `int tamaño`
counter.  `cabeza == nullptr` corresponds to `elems = []`. -/
structure ListaSensor (α : Type) where
  elems : List α
  tamano : Int
deriving DecidableEq

/-- Default constructor `ListaSensor()`: `cabeza = nullptr`, `tamaño = 0`. -/
def listaNueva {α : Type} : ListaSensor α := ⟨[], 0⟩

/-- Method `estaVacia()`: tests `cabeza == nullptr`. -/
def ListaSensor.estaVacia {α : Type} (s : ListaSensor α) : Bool :=
  s.elems.isEmpty

/-- Method `obtenerTamaño()`: returns the stored counter. -/
def ListaSensor.obtenerTamano {α : Type} (s : ListaSensor α) : Int :=
  s.tamano

/-- Method `insertarAlFinal(valor)`: links a fresh node at the end of the
chain (empty-list case sets `cabeza`, otherwise the last node's `siguiente`)
and increments `tamaño`. -/
def ListaSensor.insertarAlFinal {α : Type} (s : ListaSensor α) (v : α) :
    ListaSensor α :=
  if s.elems.isEmpty then ⟨[v], s.tamano + 1⟩
  else ⟨s.elems ++ [v], s.tamano + 1⟩

/-- The scan of `eliminarMinimo`: starting from the current minimum `m`, walk
the remaining nodes updating the minimum only on strict `<`
(`actual->dato < minNodo->dato`), so the earliest node keeps the minimum on
ties. -/
def minimoDesde {α : Type} [LinearOrder α] : α → List α → α
  | m, [] => m
  | m, x :: xs => minimoDesde (if x < m then x else m) xs

/-- The unlink step of `eliminarMinimo`: remove the first node holding the
given value (`minNodo` is the earliest node achieving the minimum, and the
source unlinks exactly that node). -/
def removeFirst {α : Type} [DecidableEq α] (v : α) : List α → List α
  | [] => []
  | x :: xs => if x = v then xs else x :: removeFirst v xs

/-- Method `eliminarMinimo()`: on an empty list warns and returns
`static_cast<T>(0)` without touching the list; otherwise scans for the first
node with minimal `dato`, unlinks it, decrements `tamaño` and returns the
removed value. -/
def ListaSensor.eliminarMinimo {α : Type} [LinearOrder α] [Zero α]
    [DecidableEq α] (s : ListaSensor α) : α × ListaSensor α :=
  match s.elems with
  | [] => (0, s)
  | x :: xs =>
      let v := minimoDesde x xs
      (v, ⟨removeFirst v (x :: xs), s.tamano - 1⟩)

/-- Method `calcularPromedio()` at the `float` instantiation: `0` on an empty
list, otherwise the sum of all `dato` divided by `tamaño`. -/
def ListaSensor.calcularPromedio (s : ListaSensor ℚ) : ℚ :=
  if s.elems.isEmpty then 0
  else (s.elems.foldl (· + ·) 0) / ((s.tamano : ℚ))

/-- Method `calcularPromedio()` at the `int` instantiation: C++ `int`
division truncates toward zero, which is `Int.tdiv`. -/
def ListaSensor.calcularPromedioEnt (s : ListaSensor ℤ) : ℤ :=
  if s.elems.isEmpty then 0
  else Int.tdiv (s.elems.foldl (· + ·) 0) s.tamano

/-- The warning printed by `calcularPromedio` — emitted exactly by its
empty-list branch. -/
def ListaSensor.diagnosticoPromedio {α : Type} (s : ListaSensor α) :
    Option (List Char) :=
  if s.elems.isEmpty then some ("[ADVERTENCIA] Lista vacia, retornando 0.".data)
  else none

/-- The error message printed by `eliminarMinimo` — emitted exactly by its
empty-list branch. -/
def ListaSensor.diagnosticoEliminarMinimo {α : Type} (s : ListaSensor α) :
    Option (List Char) :=
  if s.elems.isEmpty then some ("[ERRROR] No hay elementos para eliminar.".data)
  else none

/-- Method `imprimir()` (the render used for diagnostics): the sequence of
stored values, in chain order. -/
def ListaSensor.render {α : Type} (s : ListaSensor α) : List α :=
  s.elems

/-- Copy constructor `ListaSensor(const ListaSensor&)`: starts from the empty
list and re-inserts every `dato` of the source, in chain order. -/
def copiaLista {α : Type} (otra : ListaSensor α) : ListaSensor α :=
  otra.elems.foldl (fun acc d => acc.insertarAlFinal d) listaNueva

/-- Assignment `operator=`: clears the destination (delete loop, `tamaño = 0`)
and then re-inserts every `dato` of the source.  The `this != &otra`
self-assignment guard returns the destination unchanged, which at the level of
values coincides with the copy. -/
def asignarLista {α : Type} (_dest otra : ListaSensor α) : ListaSensor α :=
  otra.elems.foldl (fun acc d => acc.insertarAlFinal d) ⟨[], 0⟩

/-! The two sensor variants (SensorTemperatura.h / SensorPresion.h). -/

/-- Numeric value of a run of ASCII digits (most significant first). -/
def digitosVal (cs : List Char) : ℕ :=
  cs.foldl (fun n c => 10 * n + (c.toNat - 48)) 0

/-- Modelled from the spec: the C library `atof` called by
`SensorTemperatura::agregarLectura` is not part of the repository; per the
spec the VALUE field of a temperature line is parsed as a decimal number and
an unparsable literal degrades to zero.  This is the lexical part of the
parse: optional leading spaces and sign, then the longest prefix of the form
digits, digits `.` digits, or `.` digits (as `atof` accepts); the result is
the sign and the integral and fractional digit runs, and it is `none`
exactly when no digit is found — the failed numeric parse that the
degraded-to-zero policy covers. -/
def descomponerDecimal (s : List Char) : Option (Bool × List Char × List Char) :=
  let cs := s.dropWhile (fun c => c == ' ')
  let neg : Bool := cs.head? == some '-'
  let cs2 := if cs.head? == some '-' ∨ cs.head? == some '+' then cs.tail else cs
  let ip := cs2.takeWhile Char.isDigit
  let resto := cs2.dropWhile Char.isDigit
  let fp := if resto.head? == some '.' then resto.tail.takeWhile Char.isDigit
            else []
  if ip.isEmpty ∧ fp.isEmpty then none
  else some (neg, ip, fp)

/-- Numeric value of a decomposed decimal literal. -/
def valorDecimal (t : Bool × List Char × List Char) : ℚ :=
  let q : ℚ := (digitosVal t.2.1 : ℚ) + (digitosVal t.2.2 : ℚ) / ((10 : ℚ) ^ t.2.2.length)
  if t.1 then -q else q

/-- Modelled from the spec: result of a decimal VALUE parse, `none` on
failure. -/
def parseDecimal? (s : List Char) : Option ℚ :=
  (descomponerDecimal s).map valorDecimal

/-- Value of `atof`: zero when the literal has no parsable numeric prefix. -/
def atofM (s : List Char) : ℚ :=
  (parseDecimal? s).getD 0

/-- Modelled from the spec: the lexical part of the C library `atoi` called
by `SensorPresion::agregarLectura` — optional spaces and sign, then the
longest digit prefix; `none` when no digit is found. -/
def descomponerEntero (s : List Char) : Option (Bool × List Char) :=
  let cs := s.dropWhile (fun c => c == ' ')
  let neg : Bool := cs.head? == some '-'
  let cs2 := if cs.head? == some '-' ∨ cs.head? == some '+' then cs.tail else cs
  let ip := cs2.takeWhile Char.isDigit
  if ip.isEmpty then none
  else some (neg, ip)

/-- Modelled from the spec: result of an integer VALUE parse, `none` on
failure. -/
def parseEntero? (s : List Char) : Option ℤ :=
  (descomponerEntero s).map (fun t =>
    if t.1 then -((digitosVal t.2 : ℤ)) else (digitosVal t.2 : ℤ))

/-- Value of `atoi`: zero when the literal has no parsable numeric prefix. -/
def atoiM (s : List Char) : ℤ :=
  (parseEntero? s).getD 0

/-- Model of `SensorTemperatura`: the inherited `nombre` identifier and the
owned `ListaSensor<float> historial`. -/
structure SensorTemperatura where
  nombre : List Char
  historial : ListaSensor ℚ
deriving DecidableEq

/-- Constructor `SensorTemperatura(id)`: copies the identifier and starts
with an empty history. -/
def sensorTemperaturaNuevo (id : List Char) : SensorTemperatura :=
  ⟨id, listaNueva⟩

/-- Method `SensorTemperatura::agregarLectura(valor)`: converts the C string
with `atof` and appends it to the history. -/
def SensorTemperatura.agregarLectura (sen : SensorTemperatura)
    (valor : List Char) : SensorTemperatura :=
  { sen with historial := sen.historial.insertarAlFinal (atofM valor) }

/-- What one call of `SensorTemperatura::procesarLectura` reports: nothing to
process, the removed minimum, or a mean.  Exactly one of the three happens
per call. -/
inductive ReporteTemp
  | sinLecturas
  | minimoEliminado (m : ℚ)
  | promedio (p : ℚ)
deriving DecidableEq

/-- Method `SensorTemperatura::procesarLectura`: empty history → report
"no hay lecturas" and return; more than one reading → remove and report the
minimum, return (no mean in this call); otherwise → report the mean. -/
def SensorTemperatura.procesarLectura (sen : SensorTemperatura) :
    SensorTemperatura × ReporteTemp :=
  if sen.historial.estaVacia then (sen, ReporteTemp.sinLecturas)
  else if sen.historial.obtenerTamano > 1 then
    let r := sen.historial.eliminarMinimo
    ({ sen with historial := r.2 }, ReporteTemp.minimoEliminado r.1)
  else (sen, ReporteTemp.promedio sen.historial.calcularPromedio)

/-- Model of `SensorPresion`: identifier plus `ListaSensor<int> historial`. -/
structure SensorPresion where
  nombre : List Char
  historial : ListaSensor ℤ
deriving DecidableEq

/-- Constructor `SensorPresion(id)`. -/
def sensorPresionNuevo (id : List Char) : SensorPresion :=
  ⟨id, listaNueva⟩

/-- Method `SensorPresion::agregarLectura(valor)`: converts with `atoi` and
appends. -/
def SensorPresion.agregarLectura (sen : SensorPresion) (valor : List Char) :
    SensorPresion :=
  { sen with historial := sen.historial.insertarAlFinal (atoiM valor) }

/-- What one call of `SensorPresion::procesarLectura` reports. -/
inductive ReportePres
  | sinLecturas
  | promedio (p : ℤ)
deriving DecidableEq

/-- Method `SensorPresion::procesarLectura`: empty history → report "no hay
lecturas"; otherwise report the mean of all readings, removing nothing. -/
def SensorPresion.procesarLectura (sen : SensorPresion) :
    SensorPresion × ReportePres :=
  if sen.historial.estaVacia then (sen, ReportePres.sinLecturas)
  else (sen, ReportePres.promedio sen.historial.calcularPromedioEnt)

/-! The registry (GestorSensores.h). -/

/-- A sensor as stored behind a `SensorBase*`: one of the two concrete
variants. -/
inductive Sensor
  | temp (s : SensorTemperatura)
  | pres (s : SensorPresion)
deriving DecidableEq

/-- Method `obtenerNombre()` of the base class. -/
def Sensor.obtenerNombre : Sensor → List Char
  | Sensor.temp s => s.nombre
  | Sensor.pres s => s.nombre

/-- Virtual dispatch of `agregarLectura` through a `SensorBase*`. -/
def Sensor.agregarLectura : Sensor → List Char → Sensor
  | Sensor.temp s, v => Sensor.temp (s.agregarLectura v)
  | Sensor.pres s, v => Sensor.pres (s.agregarLectura v)

/-- Model of `GestorSensores`: the sensors in chain order from `cabeza`, and
the `int cantidad` counter. -/
structure GestorSensores where
  sensores : List Sensor
  cantidad : Int
deriving DecidableEq

/-- Constructor `GestorSensores()`. -/
def gestorNuevo : GestorSensores := ⟨[], 0⟩

/-- Method `agregarSensor(sensor)`: links a new `NodoSensor` at the end of
the chain (head case or tail traversal) and increments `cantidad`.  No
uniqueness check of the identifier is made. -/
def GestorSensores.agregarSensor (g : GestorSensores) (s : Sensor) :
    GestorSensores :=
  ⟨g.sensores ++ [s], g.cantidad + 1⟩

/-- The linear scan of `buscarSensor`: first node whose sensor name equals
`id` under `strcmp`. -/
def buscarLista : List Sensor → List Char → Option Sensor
  | [], _ => none
  | s :: resto, id => if s.obtenerNombre = id then some s else buscarLista resto id

/-- Method `buscarSensor(id)`: linear scan from `cabeza`, returning the first
match or `nullptr`. -/
def GestorSensores.buscarSensor (g : GestorSensores) (id : List Char) :
    Option Sensor :=
  buscarLista g.sensores id

/-- In-place mutation through the `SensorBase*` returned by `buscarSensor`:
the first sensor whose name matches receives the reading, the rest of the
chain is untouched. -/
def actualizarPrimero : List Sensor → List Char → List Char → List Sensor
  | [], _, _ => []
  | s :: resto, id, valor =>
      if s.obtenerNombre = id then s.agregarLectura valor :: resto
      else s :: actualizarPrimero resto id valor

/-- The `T-001` sensor after the demo-mode ingestion of main.cpp (scenario 1
of the spec): readings `45.3`, `42.1`, `47.8` in that order. -/
def tempDemo : SensorTemperatura :=
  (((sensorTemperaturaNuevo ("T-001".data)).agregarLectura
      ("45.3".data)).agregarLectura ("42.1".data)).agregarLectura ("47.8".data)

/-- The demo registry of the spec's registry scenario: a temperature sensor
`T-001` and a pressure sensor `P-105`, inserted in that order. -/
def gestorDemo : GestorSensores :=
  (gestorNuevo.agregarSensor
      (Sensor.temp (sensorTemperaturaNuevo ("T-001".data)))).agregarSensor
    (Sensor.pres (sensorPresionNuevo ("P-105".data)))

/-! The line protocol (main.cpp). -/

/-- Split a C string at every occurrence of the delimiter (the raw cut before
`strtok` discards empty pieces). -/
def separar (d : Char) : List Char → List (List Char)
  | [] => [[]]
  | c :: cs =>
      match separar d cs with
      | [] => [[]]
      | t :: ts => if c = d then [] :: t :: ts else (c :: t) :: ts

/-- The successive `strtok(..., ",")` results: the maximal nonempty runs of
non-delimiter characters, in order (strtok skips runs of delimiters, so empty
fields vanish). -/
def camposStrtok (d : Char) (cs : List Char) : List (List Char) :=
  (separar d cs).filter (fun t => ¬ t.isEmpty)

/-- Function `procesarLinea(linea, gestor)`: split the line at commas; if any
of the first three tokens is missing, warn and return the registry unchanged;
otherwise look the identifier up.  When a sensor with that identifier exists,
the reading goes straight to it — the kind field is never examined on this
path.  When it does not exist, the FIRST character of the kind field selects
the variant (`'T'`/`'P'`); any other first character drops the line; on
success the new sensor is linked at the end and receives the reading. -/
def procesarLinea (linea : List Char) (g : GestorSensores) : GestorSensores :=
  let campos := camposStrtok ',' linea
  match campos[0]?, campos[1]?, campos[2]? with
  | some tipo, some id, some valor =>
      match g.buscarSensor id with
      | some _ => { g with sensores := actualizarPrimero g.sensores id valor }
      | none =>
          match tipo with
          | [] => g
          | c0 :: _ =>
              if c0 = 'T' then
                g.agregarSensor
                  (Sensor.temp ((sensorTemperaturaNuevo id).agregarLectura valor))
              else if c0 = 'P' then
                g.agregarSensor
                  (Sensor.pres ((sensorPresionNuevo id).agregarLectura valor))
              else g
  | _, _, _ => g

/-! The byte-to-line framer (`leerLineaSerial` in main.cpp). -/

/-- The framer's persistent state: the pending `bufferInterno` contents
(`posicion` is its length; capacity `255` content bytes plus terminator). -/
structure EstadoSerial where
  bufferInterno : List Char
deriving DecidableEq

/-- One received byte fed to `leerLineaSerial`: a terminator (`'\n'` or
`'\r'`) with a nonempty buffer emits the buffered line and resets the buffer;
a terminator with an empty buffer is ignored; any other byte is appended
while `posicion < 255` and silently dropped once the buffer is full. -/
def leerLineaSerial (st : EstadoSerial) (c : Char) :
    EstadoSerial × Option (List Char) :=
  if c = '\n' ∨ c = '\r' then
    if 0 < st.bufferInterno.length then (⟨[]⟩, some st.bufferInterno)
    else (st, none)
  else if st.bufferInterno.length < 255 then (⟨st.bufferInterno ++ [c]⟩, none)
  else (st, none)

/-- Feeding a whole byte stream one byte at a time, collecting the emitted
lines in order. -/
def procesarBytes (st : EstadoSerial) : List Char → EstadoSerial × List (List Char)
  | [] => (st, [])
  | c :: resto =>
      let paso := leerLineaSerial st c
      let final := procesarBytes paso.1 resto
      (final.1, paso.2.toList ++ final.2)

/-! States reachable through the public interface of `ListaSensor<T>`, for
the size-counter invariant. -/

/-- The lists producible by any sequence of public operations: default
construction, `insertarAlFinal`, `eliminarMinimo`, the copy constructor and
assignment. -/
inductive Alcanzable {α : Type} [LinearOrder α] [Zero α] [DecidableEq α] :
    ListaSensor α → Prop
  | nueva : Alcanzable listaNueva
  | insertar {s : ListaSensor α} (v : α) :
      Alcanzable s → Alcanzable (s.insertarAlFinal v)
  | eliminar {s : ListaSensor α} :
      Alcanzable s → Alcanzable s.eliminarMinimo.2
  | copia {s : ListaSensor α} :
      Alcanzable s → Alcanzable (copiaLista s)
  | asignar {d s : ListaSensor α} :
      Alcanzable d → Alcanzable s → Alcanzable (asignarLista d s)

/-! Heap model of the node store, for the deep-copy / aliasing claims.  A
`Nodo<T>` lives at an address; the heap maps addresses to live cells
`(dato, siguiente)`, with `none` marking unallocated or freed storage.
Allocation hands out the next never-used address (`prox`), so what matters
for the aliasing claims — which addresses are distinct — is modelled
exactly, while numeric address values carry no meaning. -/

/-- A live `Nodo<T>` cell: the stored `dato` and the `siguiente` pointer
(`none` is `nullptr`). -/
abbrev Celda (α : Type) := α × Option Nat

/-- The node store: the contents of every address and the allocation
counter. -/
structure Memoria (α : Type) where
  mem : Nat → Option (Celda α)
  prox : Nat

/-- Update one address of a store. -/
def escribir {α : Type} (m : Nat → Option (Celda α)) (a : Nat)
    (c : Option (Celda α)) : Nat → Option (Celda α) :=
  fun b => if b = a then c else m b

/-- A well-formed store: no address at or beyond the allocation counter is
live. -/
def BuenaMem {α : Type} (M : Memoria α) : Prop :=
  ∀ a, M.prox ≤ a → M.mem a = none

/-- A `ListaSensor<T>` object header in the heap model: its `cabeza` pointer
and its `tamaño` counter (the object itself lives outside the node store;
only nodes are heap-allocated). -/
structure ListaH where
  cabeza : Option Nat
  tamano : Int
deriving DecidableEq

/-- The chain reachable from a pointer: `Cadena m p as vs` says that
following `siguiente` from `p` visits exactly the addresses `as`, holding
the values `vs`, and ends at `nullptr`. -/
inductive Cadena {α : Type} (m : Nat → Option (Celda α)) :
    Option Nat → List Nat → List α → Prop
  | vacia : Cadena m none [] []
  | nodo {a : Nat} {v : α} {p : Option Nat} {as : List Nat} {vs : List α} :
      m a = some (v, p) → Cadena m p as vs →
      Cadena m (some a) (a :: as) (v :: vs)

/-- A list object valid in a store: its chain, with an accurate counter and
pairwise-distinct node addresses. -/
def ListaValida {α : Type} (M : Memoria α) (l : ListaH) (as : List Nat)
    (vs : List α) : Prop :=
  Cadena M.mem l.cabeza as vs ∧ l.tamano = (as.length : Int) ∧ as.Nodup ∧
    vs.length = as.length

/-- The traversal `while (actual->siguiente != nullptr)` of
`insertarAlFinal`: from address `a`, follow `siguiente` while it is not
null.  The fuel only bounds the walk; every call below supplies at least the
chain length. -/
def buscarUltimo {α : Type} (m : Nat → Option (Celda α)) :
    Nat → Nat → Nat
  | 0, a => a
  | fuel + 1, a =>
      match m a with
      | some (_, some b) => buscarUltimo m fuel b
      | _ => a

/-- Heap-level `insertarAlFinal`: allocate the new node at the fresh
address; if the list is empty it becomes `cabeza`, otherwise the traversal
finds the last node and its `siguiente` is pointed at the new node;
`tamaño` is incremented. -/
def insertarAlFinalH {α : Type} (M : Memoria α) (l : ListaH) (v : α) :
    Memoria α × ListaH :=
  let addr := M.prox
  let m1 := escribir M.mem addr (some (v, none))
  match l.cabeza with
  | none => (⟨m1, M.prox + 1⟩, ⟨some addr, l.tamano + 1⟩)
  | some c =>
      let u := buscarUltimo M.mem l.tamano.toNat c
      match M.mem u with
      | some (d, _) =>
          (⟨escribir m1 u (some (d, some addr)), M.prox + 1⟩,
            ⟨l.cabeza, l.tamano + 1⟩)
      | none => (⟨m1, M.prox + 1⟩, ⟨l.cabeza, l.tamano + 1⟩)

/-- The scan of heap-level `eliminarMinimo`: walks `actual` with the running
`minNodo` address and value, `anterior`, and `anteriorMin`, updating the
minimum only on strict `<`; returns the minimum's address and its
predecessor's. -/
def buscarMinH {α : Type} [LinearOrder α] (m : Nat → Option (Celda α)) :
    Nat → Option Nat → Nat → α → Option Nat → Option Nat → Nat × Option Nat
  | 0, _, minA, _, _, antMin => (minA, antMin)
  | _ + 1, none, minA, _, _, antMin => (minA, antMin)
  | fuel + 1, some a, minA, minV, ant, antMin =>
      match m a with
      | none => (minA, antMin)
      | some (dv, nxt) =>
          if dv < minV then buscarMinH m fuel nxt a dv (some a) ant
          else buscarMinH m fuel nxt minA minV (some a) antMin

/-- Heap-level `eliminarMinimo`: find the first minimal node; unlink it
(moving `cabeza` when it is the head, rewriting the predecessor's
`siguiente` otherwise); `delete` frees its cell; `tamaño` is
decremented. -/
def eliminarMinimoH {α : Type} [LinearOrder α] (M : Memoria α) (l : ListaH) :
    Memoria α × ListaH :=
  match l.cabeza with
  | none => (M, l)
  | some c =>
      match M.mem c with
      | none => (M, l)
      | some (cv, _) =>
          let r := buscarMinH M.mem (l.tamano.toNat + 1) (some c) c cv none none
          let minSig : Option Nat :=
            match M.mem r.1 with
            | some (_, s) => s
            | none => none
          match r.2 with
          | none =>
              (⟨escribir M.mem r.1 none, M.prox⟩, ⟨minSig, l.tamano - 1⟩)
          | some p =>
              match M.mem p with
              | some (pd, _) =>
                  (⟨escribir (escribir M.mem p (some (pd, minSig))) r.1 none,
                      M.prox⟩,
                    ⟨l.cabeza, l.tamano - 1⟩)
              | none => (M, l)

/-- The read-only walk of the copy constructor and of `operator=` over the
source list: the `dato` values from a pointer, in chain order. -/
def leerValores {α : Type} (m : Nat → Option (Celda α)) :
    Nat → Option Nat → List α
  | 0, _ => []
  | _ + 1, none => []
  | fuel + 1, some a =>
      match m a with
      | none => []
      | some (v, nxt) => v :: leerValores m fuel nxt

/-- Heap-level copy constructor `ListaSensor(const ListaSensor&)`: start
from the empty list and `insertarAlFinal` every `dato` of the source, in
order — every node of the copy is freshly allocated. -/
def copiaH {α : Type} (M : Memoria α) (otra : ListaH) : Memoria α × ListaH :=
  (leerValores M.mem otra.tamano.toNat otra.cabeza).foldl
    (fun p d => insertarAlFinalH p.1 p.2 d) (M, ⟨none, 0⟩)

/-- The clearing loop of `operator=`: `delete` every node of the destination
chain, reading `siguiente` before freeing each node. -/
def liberarCadena {α : Type} (m : Nat → Option (Celda α)) :
    Nat → Option Nat → (Nat → Option (Celda α))
  | 0, _ => m
  | _ + 1, none => m
  | fuel + 1, some a =>
      match m a with
      | none => m
      | some (_, nxt) => liberarCadena (escribir m a none) fuel nxt

/-- Heap-level `operator=` (for distinct objects, the only case the claims
quantify over — the `this != &otra` guard returns immediately on
self-assignment): first free every node of the destination and zero its
counter, then deep-copy the source exactly as the copy constructor does. -/
def asignacionH {α : Type} (M : Memoria α) (dest otra : ListaH) :
    Memoria α × ListaH :=
  let m1 := liberarCadena M.mem (dest.tamano.toNat + 1) dest.cabeza
  copiaH ⟨m1, M.prox⟩ otra

/-- A concrete store for the deep-copy witnesses: chain `7, 5` at addresses
`0, 1` and a second chain `9` at address `2`. -/
def memDemo : Memoria ℤ :=
  ⟨fun b => if b = 0 then some (7, some 1) else if b = 1 then some (5, none)
    else if b = 2 then some (9, none) else none, 3⟩

/-- Header of the first demo list (values `7, 5`). -/
def listaDemoA : ListaH := ⟨some 0, 2⟩

/-- Header of the second demo list (value `9`). -/
def listaDemoB : ListaH := ⟨some 2, 1⟩

/-! Helper lemmas about the pure list model. -/

theorem minimoDesde_le {α : Type} [LinearOrder α] (m : α) (l : List α) :
    minimoDesde m l ≤ m ∧ ∀ x ∈ l, minimoDesde m l ≤ x := by
  induction l generalizing m with
  | nil => simp [minimoDesde]
  | cons x xs ih =>
      simp only [minimoDesde]
      rcases ih (if x < m then x else m) with ⟨h1, h2⟩
      constructor
      · exact h1.trans (by split <;> simp_all [le_of_lt])
      · intro y hy
        rcases List.mem_cons.mp hy with rfl | hy
        · exact h1.trans (by split <;> simp_all [le_of_lt])
        · exact h2 y hy

theorem minimoDesde_mem {α : Type} [LinearOrder α] (m : α) (l : List α) :
    minimoDesde m l ∈ m :: l := by
  induction l generalizing m with
  | nil => simp [minimoDesde]
  | cons x xs ih =>
      simp only [minimoDesde]
      rcases List.mem_cons.mp (ih (if x < m then x else m)) with h | h
      · rw [h]
        split <;> simp
      · simp [h]

theorem removeFirst_eq_erase {α : Type} [DecidableEq α] (v : α) (l : List α) :
    removeFirst v l = l.erase v := by
  induction l with
  | nil => simp [removeFirst]
  | cons x xs ih =>
      by_cases h : x = v
      · simp [removeFirst, h, List.erase_cons_head]
      · have hb : (x == v) = false := beq_false_of_ne h
        simp [removeFirst, h, List.erase_cons_tail, ih, hb]

theorem removeFirst_length {α : Type} [DecidableEq α] (v : α) (l : List α)
    (h : v ∈ l) : (removeFirst v l).length + 1 = l.length := by
  rw [removeFirst_eq_erase]
  rw [List.length_erase_of_mem h]
  have : 0 < l.length := List.length_pos.mpr (List.ne_nil_of_mem h)
  omega

theorem foldl_insertarAlFinal {α : Type} (l : List α) (acc : ListaSensor α) :
    (l.foldl (fun a d => a.insertarAlFinal d) acc) =
      ⟨acc.elems ++ l, acc.tamano + l.length⟩ := by
  induction l generalizing acc with
  | nil => simp
  | cons x xs ih =>
      simp only [List.foldl_cons, ih]
      unfold ListaSensor.insertarAlFinal
      by_cases h : acc.elems.isEmpty
      · simp only [h, if_true]
        rcases acc with ⟨e, t⟩
        simp only [List.isEmpty_iff] at h
        subst h
        simp [List.length_cons]
        omega
      · simp only [h, if_false]
        simp [List.length_cons]
        omega

theorem tamano_eq_length_of_alcanzable {α : Type} [LinearOrder α] [Zero α]
    [DecidableEq α] (s : ListaSensor α) (h : Alcanzable s) :
    s.tamano = (s.elems.length : Int) := by
  induction h with
  | nueva => simp [listaNueva]
  | insertar v _ ih =>
      rename_i s' _
      unfold ListaSensor.insertarAlFinal
      by_cases h' : s'.elems.isEmpty
      · simp only [h', if_true]
        simp only [List.isEmpty_iff] at h'
        simp [h'] at ih
        simp [ih, h']
      · simp only [h', if_false]
        simp [ih]
  | eliminar _ ih =>
      rename_i s' _
      rcases s' with ⟨elems, tam⟩
      rcases elems with _ | ⟨x, xs⟩
      · simpa [ListaSensor.eliminarMinimo] using ih
      · have hv : minimoDesde x xs ∈ x :: xs := minimoDesde_mem x xs
        have hl := removeFirst_length (minimoDesde x xs) (x :: xs) hv
        have he : (⟨x :: xs, tam⟩ : ListaSensor α).eliminarMinimo =
            (minimoDesde x xs,
              ⟨removeFirst (minimoDesde x xs) (x :: xs), tam - 1⟩) := rfl
        rw [he]
        simp only at ih ⊢
        omega
  | copia _ ih =>
      rename_i s' _
      simp [copiaLista, foldl_insertarAlFinal, listaNueva, ih]
  | asignar _ _ _ ih =>
      rename_i d' s' _ _
      simp [asignarLista, foldl_insertarAlFinal, ih]

/-- C3: on every non-empty sequence, `eliminarMinimo` returns a value that
is present and minimal; the new chain is the old one with exactly the
earliest occurrence of that minimum removed (so the remaining elements keep
their relative order, witnessed by the sublist relation), and both the node
count and the `tamaño` counter drop by exactly one. -/
theorem eliminarMinimo_correcto {α : Type} [LinearOrder α] [Zero α]
    [DecidableEq α] (s : ListaSensor α) (h : s.elems ≠ []) :
    s.eliminarMinimo.1 ∈ s.elems ∧
    (∀ x ∈ s.elems, s.eliminarMinimo.1 ≤ x) ∧
    s.eliminarMinimo.2.elems = s.elems.erase s.eliminarMinimo.1 ∧
    List.Sublist s.eliminarMinimo.2.elems s.elems ∧
    s.eliminarMinimo.2.elems.length + 1 = s.elems.length ∧
    s.eliminarMinimo.2.tamano = s.tamano - 1 := by
  rcases s with ⟨elems, tam⟩
  rcases elems with _ | ⟨x, xs⟩
  · exact absurd rfl h
  · have he : (⟨x :: xs, tam⟩ : ListaSensor α).eliminarMinimo =
        (minimoDesde x xs,
          ⟨removeFirst (minimoDesde x xs) (x :: xs), tam - 1⟩) := rfl
    rw [he]
    have hv : minimoDesde x xs ∈ x :: xs := minimoDesde_mem x xs
    have hle := minimoDesde_le x xs
    refine ⟨hv, ?_, ?_, ?_, ?_, rfl⟩
    · intro y hy
      rcases List.mem_cons.mp hy with rfl | hy
      · exact hle.1
      · exact hle.2 y hy
    · exact removeFirst_eq_erase _ _
    · rw [removeFirst_eq_erase]
      exact List.erase_sublist _ _
    · exact removeFirst_length _ _ hv

/-- Witness for C3 at a concrete sequence with a tied minimum: from
`[3, 1, 1, 2]` the earliest `1` is removed. -/
theorem eliminarMinimo_correcto_testigo :
    ((⟨[3, 1, 1, 2], 4⟩ : ListaSensor ℤ).elems ≠ []) ∧
    ((⟨[3, 1, 1, 2], 4⟩ : ListaSensor ℤ).eliminarMinimo.1 ∈ [3, 1, 1, 2] ∧
      (∀ x ∈ (⟨[3, 1, 1, 2], 4⟩ : ListaSensor ℤ).elems,
        (⟨[3, 1, 1, 2], 4⟩ : ListaSensor ℤ).eliminarMinimo.1 ≤ x) ∧
      (⟨[3, 1, 1, 2], 4⟩ : ListaSensor ℤ).eliminarMinimo.2.elems =
        [3, 1, 1, 2].erase (⟨[3, 1, 1, 2], 4⟩ : ListaSensor ℤ).eliminarMinimo.1 ∧
      List.Sublist (⟨[3, 1, 1, 2], 4⟩ : ListaSensor ℤ).eliminarMinimo.2.elems
        [3, 1, 1, 2] ∧
      (⟨[3, 1, 1, 2], 4⟩ : ListaSensor ℤ).eliminarMinimo.2.elems.length + 1 =
        ([3, 1, 1, 2] : List ℤ).length ∧
      (⟨[3, 1, 1, 2], 4⟩ : ListaSensor ℤ).eliminarMinimo.2.tamano = 4 - 1) :=
  ⟨by decide, eliminarMinimo_correcto ⟨[3, 1, 1, 2], 4⟩ (by decide)⟩

/-- C7: querying an empty sequence is harmless — `calcularPromedio` returns
the zero of the element type (at both template instantiations used by the
program), `eliminarMinimo` returns zero and leaves the sequence untouched
(so its size stays `0`), and both branches emit their warning text; both
operations are total functions, never a fatal fault. -/
theorem consultas_en_vacio :
    (∀ sq : ListaSensor ℚ, sq.elems = [] →
      sq.calcularPromedio = 0 ∧
      sq.diagnosticoPromedio =
        some ("[ADVERTENCIA] Lista vacia, retornando 0.".data)) ∧
    (∀ sz : ListaSensor ℤ, sz.elems = [] →
      sz.calcularPromedioEnt = 0 ∧
      sz.diagnosticoPromedio =
        some ("[ADVERTENCIA] Lista vacia, retornando 0.".data)) ∧
    (∀ (α : Type) (_ : LinearOrder α) (_ : Zero α) (_ : DecidableEq α)
      (s : ListaSensor α), s.elems = [] →
      s.eliminarMinimo = (0, s) ∧ s.eliminarMinimo.2.obtenerTamano = s.tamano ∧
      s.diagnosticoEliminarMinimo =
        some ("[ERRROR] No hay elementos para eliminar.".data)) := by
  refine ⟨?_, ?_, ?_⟩
  · intro sq hq
    constructor
    · simp [ListaSensor.calcularPromedio, hq]
    · simp [ListaSensor.diagnosticoPromedio, hq]
  · intro sz hz
    constructor
    · simp [ListaSensor.calcularPromedioEnt, hz]
    · simp [ListaSensor.diagnosticoPromedio, hz]
  · intro α _ _ _ s h
    refine ⟨?_, ?_, ?_⟩
    · rcases s with ⟨elems, tam⟩
      simp only at h
      subst h
      simp [ListaSensor.eliminarMinimo]
    · rcases s with ⟨elems, tam⟩
      simp only at h
      subst h
      simp [ListaSensor.eliminarMinimo, ListaSensor.obtenerTamano]
    · simp [ListaSensor.diagnosticoEliminarMinimo, h]

/-- Witness for C7 at freshly constructed (empty) sequences. -/
theorem consultas_en_vacio_testigo :
    ((listaNueva : ListaSensor ℚ).elems = [] ∧
      (listaNueva : ListaSensor ℚ).calcularPromedio = 0) ∧
    ((listaNueva : ListaSensor ℤ).elems = [] ∧
      (listaNueva : ListaSensor ℤ).calcularPromedioEnt = 0) ∧
    ((listaNueva : ListaSensor ℤ).eliminarMinimo = (0, listaNueva)) := by
  refine ⟨⟨rfl, ?_⟩, ⟨rfl, ?_⟩, ?_⟩
  · exact ((consultas_en_vacio.1 listaNueva rfl).1)
  · exact ((consultas_en_vacio.2.1 listaNueva rfl).1)
  · exact ((consultas_en_vacio.2.2 ℤ _ _ _ listaNueva rfl).1)

/-- C10: every `ListaSensor` reachable through the public operations keeps
its `tamaño` counter equal to the number of nodes in the chain, and hence
`estaVacia()` holds exactly when `obtenerTamaño()` is zero. -/
theorem contador_coincide {α : Type} [LinearOrder α] [Zero α] [DecidableEq α]
    (s : ListaSensor α) (h : Alcanzable s) :
    s.tamano = (s.elems.length : Int) ∧
    (s.estaVacia = true ↔ s.obtenerTamano = 0) := by
  have ht := tamano_eq_length_of_alcanzable s h
  refine ⟨ht, ?_⟩
  rw [ListaSensor.estaVacia, ListaSensor.obtenerTamano, ht]
  simp [List.isEmpty_iff, List.length_eq_zero]

/-- Witness for C10 at a state built by inserting twice and removing the
minimum once. -/
theorem contador_coincide_testigo :
    Alcanzable (((listaNueva.insertarAlFinal (5 : ℤ)).insertarAlFinal
        2).eliminarMinimo.2) ∧
    (((listaNueva.insertarAlFinal (5 : ℤ)).insertarAlFinal
        2).eliminarMinimo.2.tamano =
      ((((listaNueva.insertarAlFinal (5 : ℤ)).insertarAlFinal
        2).eliminarMinimo.2.elems.length : Int)) ∧
    ((((listaNueva.insertarAlFinal (5 : ℤ)).insertarAlFinal
        2).eliminarMinimo.2.estaVacia = true) ↔
      (((listaNueva.insertarAlFinal (5 : ℤ)).insertarAlFinal
        2).eliminarMinimo.2.obtenerTamano = 0))) :=
  ⟨Alcanzable.eliminar (Alcanzable.insertar 2 (Alcanzable.insertar 5
      Alcanzable.nueva)),
    contador_coincide _ (Alcanzable.eliminar (Alcanzable.insertar 2
      (Alcanzable.insertar 5 Alcanzable.nueva)))⟩

/-! Registry lemmas. -/

theorem buscarLista_primero (l1 l2 : List Sensor) (s : Sensor) (id : List Char)
    (h1 : ∀ t ∈ l1, t.obtenerNombre ≠ id) (h2 : s.obtenerNombre = id) :
    buscarLista (l1 ++ s :: l2) id = some s := by
  induction l1 with
  | nil => simp [buscarLista, h2]
  | cons t resto ih =>
      have ht : t.obtenerNombre ≠ id := h1 t (by simp)
      simp only [List.cons_append, buscarLista, if_neg ht]
      exact ih (fun u hu => h1 u (by simp [hu]))

theorem buscarLista_ninguno (l : List Sensor) (id : List Char)
    (h : ∀ t ∈ l, t.obtenerNombre ≠ id) : buscarLista l id = none := by
  induction l with
  | nil => rfl
  | cons t resto ih =>
      have ht : t.obtenerNombre ≠ id := h t (by simp)
      simp only [buscarLista, if_neg ht]
      exact ih (fun u hu => h u (by simp [hu]))

/-- C9: `agregarSensor` unconditionally appends at the end of the collection
and increments `cantidad` — the equations hold for every sensor, including
one whose identifier is already present, so no uniqueness check is made;
`buscarSensor` scans in insertion order returning the first identifier
match, and `none` when nothing matches; and on the demo registry the
`T-001` / `P-105` / `X-999` lookups behave as described. -/
theorem registro_insertar_buscar :
    (∀ (g : GestorSensores) (s : Sensor),
      (g.agregarSensor s).sensores = g.sensores ++ [s] ∧
      (g.agregarSensor s).cantidad = g.cantidad + 1) ∧
    (∀ (g : GestorSensores) (l1 l2 : List Sensor) (s : Sensor) (id : List Char),
      g.sensores = l1 ++ s :: l2 → (∀ t ∈ l1, t.obtenerNombre ≠ id) →
      s.obtenerNombre = id → g.buscarSensor id = some s) ∧
    (∀ (g : GestorSensores) (id : List Char),
      (∀ t ∈ g.sensores, t.obtenerNombre ≠ id) → g.buscarSensor id = none) ∧
    gestorDemo.buscarSensor ("T-001".data) =
      some (Sensor.temp (sensorTemperaturaNuevo ("T-001".data))) ∧
    gestorDemo.buscarSensor ("P-105".data) =
      some (Sensor.pres (sensorPresionNuevo ("P-105".data))) ∧
    gestorDemo.buscarSensor ("X-999".data) = none := by
  refine ⟨?_, ?_, ?_, ?_, ?_, ?_⟩
  · exact fun g s => ⟨rfl, rfl⟩
  · intro g l1 l2 s id hg h1 h2
    unfold GestorSensores.buscarSensor
    rw [hg]
    exact buscarLista_primero l1 l2 s id h1 h2
  · intro g id h
    exact buscarLista_ninguno g.sensores id h
  · decide
  · decide
  · decide

/-- Witness for C9: the lookups of the demo registry, obtained by applying
the theorem at explicit decompositions of its sensor chain. -/
theorem registro_insertar_buscar_testigo :
    (gestorDemo.sensores =
      [Sensor.temp (sensorTemperaturaNuevo ("T-001".data))] ++
        Sensor.pres (sensorPresionNuevo ("P-105".data)) :: [] ∧
      (∀ t ∈ [Sensor.temp (sensorTemperaturaNuevo ("T-001".data))],
        t.obtenerNombre ≠ ("P-105".data)) ∧
      (Sensor.pres (sensorPresionNuevo ("P-105".data))).obtenerNombre =
        ("P-105".data) ∧
      gestorDemo.buscarSensor ("P-105".data) =
        some (Sensor.pres (sensorPresionNuevo ("P-105".data)))) ∧
    ((∀ t ∈ gestorDemo.sensores, t.obtenerNombre ≠ ("X-999".data)) ∧
      gestorDemo.buscarSensor ("X-999".data) = none) :=
  ⟨⟨by decide, by decide, by decide,
      registro_insertar_buscar.2.1 gestorDemo
        [Sensor.temp (sensorTemperaturaNuevo ("T-001".data))] []
        (Sensor.pres (sensorPresionNuevo ("P-105".data))) ("P-105".data)
        (by decide) (by decide) (by decide)⟩,
    ⟨by decide,
      registro_insertar_buscar.2.2.1 gestorDemo ("X-999".data) (by decide)⟩⟩

/-! Framer lemmas. -/

theorem leerLineaSerial_paso (st : EstadoSerial) (c : Char)
    (h : st.bufferInterno.length ≤ 255) :
    (leerLineaSerial st c).1.bufferInterno.length ≤ 255 ∧
    ∀ line, (leerLineaSerial st c).2 = some line →
      0 < line.length ∧ line.length ≤ 255 := by
  unfold leerLineaSerial
  by_cases hc : c = '\n' ∨ c = '\r'
  · simp only [if_pos hc]
    by_cases hp : 0 < st.bufferInterno.length
    · simp only [if_pos hp]
      exact ⟨by simp, fun line hl => by
        simp only [Option.some.injEq] at hl
        subst hl
        exact ⟨hp, h⟩⟩
    · simp only [if_neg hp]
      exact ⟨h, fun line hl => by simp at hl⟩
  · simp only [if_neg hc]
    by_cases hp : st.bufferInterno.length < 255
    · simp only [if_pos hp]
      refine ⟨?_, fun line hl => by simp at hl⟩
      simp only [List.length_append, List.length_cons, List.length_nil]
      omega
    · simp only [if_neg hp]
      exact ⟨h, fun line hl => by simp at hl⟩

theorem procesarBytes_lineas (bytes : List Char) (st : EstadoSerial)
    (h : st.bufferInterno.length ≤ 255) :
    ∀ line ∈ (procesarBytes st bytes).2, 0 < line.length ∧ line.length ≤ 255 := by
  induction bytes generalizing st with
  | nil => simp [procesarBytes]
  | cons c resto ih =>
      intro line hline
      simp only [procesarBytes] at hline
      rcases leerLineaSerial_paso st c h with ⟨h1, h2⟩
      rcases List.mem_append.mp hline with hl | hl
      · rcases ho : (leerLineaSerial st c).2 with _ | l
        · rw [ho] at hl
          simp at hl
        · rw [ho] at hl
          simp only [Option.toList_some, List.mem_singleton] at hl
          subst hl
          exact h2 line ho
      · exact ih (leerLineaSerial st c).1 h1 line hl

/-- C6: the framer ignores a terminator that arrives with an empty buffer
(no empty line is emitted), emits exactly the buffered line and resets the
buffer on a terminator with a nonempty buffer, appends other bytes while
room remains, silently drops bytes once the buffer is full, and over any
byte stream started within capacity every emitted line is nonempty and at
most 255 bytes long. -/
theorem framer_comportamiento :
    (∀ (st : EstadoSerial) (c : Char), (c = '\n' ∨ c = '\r') →
      st.bufferInterno = [] → leerLineaSerial st c = (st, none)) ∧
    (∀ (st : EstadoSerial) (c : Char), (c = '\n' ∨ c = '\r') →
      st.bufferInterno ≠ [] →
      leerLineaSerial st c = (⟨[]⟩, some st.bufferInterno)) ∧
    (∀ (st : EstadoSerial) (c : Char), ¬(c = '\n' ∨ c = '\r') →
      st.bufferInterno.length < 255 →
      leerLineaSerial st c = (⟨st.bufferInterno ++ [c]⟩, none)) ∧
    (∀ (st : EstadoSerial) (c : Char), ¬(c = '\n' ∨ c = '\r') →
      ¬ st.bufferInterno.length < 255 → leerLineaSerial st c = (st, none)) ∧
    (∀ (bytes : List Char) (st : EstadoSerial),
      st.bufferInterno.length ≤ 255 →
      ∀ line ∈ (procesarBytes st bytes).2,
        0 < line.length ∧ line.length ≤ 255) := by
  refine ⟨?_, ?_, ?_, ?_, ?_⟩
  · intro st c hc hb
    unfold leerLineaSerial
    rw [if_pos hc, hb]
    simp
  · intro st c hc hb
    unfold leerLineaSerial
    rw [if_pos hc, if_pos (List.length_pos.mpr hb)]
  · intro st c hc hp
    unfold leerLineaSerial
    rw [if_neg hc, if_pos hp]
  · intro st c hc hp
    unfold leerLineaSerial
    rw [if_neg hc, if_neg hp]
  · exact fun bytes st h => procesarBytes_lineas bytes st h

/-- Witness for C6: the four per-byte behaviours and the stream bound at
concrete inputs, each obtained from the theorem. -/
theorem framer_comportamiento_testigo :
    (('\n' = '\n' ∨ '\n' = '\r') ∧
      (⟨[]⟩ : EstadoSerial).bufferInterno = [] ∧
      leerLineaSerial ⟨[]⟩ '\n' = (⟨[]⟩, none)) ∧
    ((⟨['a']⟩ : EstadoSerial).bufferInterno ≠ [] ∧
      leerLineaSerial ⟨['a']⟩ '\r' = (⟨[]⟩, some ['a'])) ∧
    (¬('b' = '\n' ∨ 'b' = '\r') ∧ (⟨['a']⟩ : EstadoSerial).bufferInterno.length < 255 ∧
      leerLineaSerial ⟨['a']⟩ 'b' = (⟨['a', 'b']⟩, none)) ∧
    ((⟨[]⟩ : EstadoSerial).bufferInterno.length ≤ 255 ∧
      ∀ line ∈ (procesarBytes ⟨[]⟩ ['a', '\n']).2,
        0 < line.length ∧ line.length ≤ 255) :=
  ⟨⟨Or.inl rfl, rfl, framer_comportamiento.1 ⟨[]⟩ '\n' (Or.inl rfl) rfl⟩,
    ⟨by decide, framer_comportamiento.2.1 ⟨['a']⟩ '\r' (Or.inr rfl) (by decide)⟩,
    ⟨by decide, by decide,
      framer_comportamiento.2.2.1 ⟨['a']⟩ 'b' (by decide) (by decide)⟩,
    ⟨by decide, framer_comportamiento.2.2.2.2 ['a', '\n'] ⟨[]⟩ (by decide)⟩⟩

/-! Sums, for the pressure mean. -/

theorem foldl_add_eq_sum (l : List ℤ) (a : ℤ) :
    l.foldl (· + ·) a = a + l.sum := by
  induction l generalizing a with
  | nil => simp
  | cons x xs ih =>
      simp only [List.foldl_cons, List.sum_cons, ih]
      ring

/-- C4: a pressure sensor with readings reports the mean of all accumulated
readings — the truncating integer division of their sum by the count — and
removes nothing: the sensor, its sequence contents and its size are returned
unchanged.  With an empty sequence it only reports that there is nothing to
process.  The `1013 / 1015 / 1012` scenario reports `1013` and still holds
three readings. -/
theorem procesar_presion :
    (∀ sen : SensorPresion, sen.historial.estaVacia = true →
      sen.procesarLectura = (sen, ReportePres.sinLecturas)) ∧
    (∀ sen : SensorPresion, sen.historial.estaVacia = false →
      sen.procesarLectura.1 = sen ∧
      sen.procesarLectura.1.historial.elems = sen.historial.elems ∧
      sen.procesarLectura.1.historial.tamano = sen.historial.tamano ∧
      sen.procesarLectura.2 = ReportePres.promedio
        (Int.tdiv sen.historial.elems.sum sen.historial.tamano)) ∧
    ((((sensorPresionNuevo ("P-105".data)).agregarLectura
        ("1013".data)).agregarLectura ("1015".data)).agregarLectura
          ("1012".data)).historial.elems = [1013, 1015, 1012] ∧
    ((((sensorPresionNuevo ("P-105".data)).agregarLectura
        ("1013".data)).agregarLectura ("1015".data)).agregarLectura
          ("1012".data)).procesarLectura =
      (((((sensorPresionNuevo ("P-105".data)).agregarLectura
        ("1013".data)).agregarLectura ("1015".data)).agregarLectura
          ("1012".data)), ReportePres.promedio 1013) ∧
    ((((sensorPresionNuevo ("P-105".data)).agregarLectura
        ("1013".data)).agregarLectura ("1015".data)).agregarLectura
          ("1012".data)).procesarLectura.1.historial.elems.length = 3 := by
  refine ⟨?_, ?_, ?_, ?_, ?_⟩
  · intro sen h
    unfold SensorPresion.procesarLectura
    rw [if_pos h]
  · intro sen h
    unfold SensorPresion.procesarLectura
    rw [if_neg (by simp [h])]
    refine ⟨rfl, rfl, rfl, ?_⟩
    simp only [ListaSensor.calcularPromedioEnt]
    rw [if_neg (by
      intro hempty
      rw [ListaSensor.estaVacia, hempty] at h
      simp at h)]
    rw [foldl_add_eq_sum, zero_add]
  · decide
  · decide
  · decide

/-- Witness for C4 at the populated `P-105` sensor. -/
theorem procesar_presion_testigo :
    ((((sensorPresionNuevo ("P-105".data)).agregarLectura
        ("1013".data)).agregarLectura ("1015".data)).agregarLectura
          ("1012".data)).historial.estaVacia = false ∧
    ((((sensorPresionNuevo ("P-105".data)).agregarLectura
        ("1013".data)).agregarLectura ("1015".data)).agregarLectura
          ("1012".data)).procesarLectura.1 =
      ((((sensorPresionNuevo ("P-105".data)).agregarLectura
        ("1013".data)).agregarLectura ("1015".data)).agregarLectura
          ("1012".data)) :=
  ⟨by decide,
    (procesar_presion.2.1
      (((((sensorPresionNuevo ("P-105".data)).agregarLectura
        ("1013".data)).agregarLectura ("1015".data)).agregarLectura
          ("1012".data))) (by decide)).1⟩

/-- C8: a well-formed line whose VALUE literal fails the numeric parse is
not discarded — `agregarLectura` still appends a reading, whose numeric
value is zero, at both sensor variants; `abc` is such a literal; and the
line `T,T-002,abc` arriving at an empty registry creates sensor `T-002`
holding exactly one reading of value zero (the value reported by the
log notice of the append). -/
theorem lectura_degradada :
    (∀ (sen : SensorTemperatura) (valor : List Char),
      parseDecimal? valor = none →
      sen.agregarLectura valor =
        { sen with historial := sen.historial.insertarAlFinal 0 }) ∧
    (∀ (sen : SensorPresion) (valor : List Char),
      parseEntero? valor = none →
      sen.agregarLectura valor =
        { sen with historial := sen.historial.insertarAlFinal 0 }) ∧
    parseDecimal? ("abc".data) = none ∧
    procesarLinea ("T,T-002,abc".data) gestorNuevo =
      gestorNuevo.agregarSensor (Sensor.temp ⟨"T-002".data, ⟨[0], 1⟩⟩) := by
  refine ⟨?_, ?_, ?_, ?_⟩
  · intro sen valor h
    unfold SensorTemperatura.agregarLectura
    rw [atofM, h]
    rfl
  · intro sen valor h
    unfold SensorPresion.agregarLectura
    rw [atoiM, h]
    rfl
  · decide
  · have habc : atofM ("abc".data) = 0 := by
      rw [atofM, parseDecimal?]
      have h : descomponerDecimal ("abc".data) = none := by decide
      rw [h]
      rfl
    have hcampos : camposStrtok ',' ("T,T-002,abc".data) =
        ["T".data, "T-002".data, "abc".data] := by decide
    rw [procesarLinea, hcampos]
    simp only [List.getElem?_cons_zero, List.getElem?_cons_succ]
    have hb : gestorNuevo.buscarSensor ("T-002".data) = none := by decide
    rw [hb]
    simp only [SensorTemperatura.agregarLectura, sensorTemperaturaNuevo, habc]
    have : (listaNueva : ListaSensor ℚ).insertarAlFinal 0 = ⟨[0], 1⟩ := by
      simp [listaNueva, ListaSensor.insertarAlFinal]
    rw [this]
    rfl

/-- Witness for C8 at the `abc` literal on a fresh temperature sensor. -/
theorem lectura_degradada_testigo :
    parseDecimal? ("abc".data) = none ∧
    (sensorTemperaturaNuevo ("T-002".data)).agregarLectura ("abc".data) =
      { sensorTemperaturaNuevo ("T-002".data) with
          historial := (sensorTemperaturaNuevo ("T-002".data)).historial.insertarAlFinal 0 } :=
  ⟨by decide,
    lectura_degradada.1 (sensorTemperaturaNuevo ("T-002".data)) ("abc".data)
      (by decide)⟩

/-! Concrete `atof` values for the scenario literals. -/

theorem atofM_45_3 : atofM ['4', '5', '.', '3'] = 453 / 10 := by
  rw [atofM, parseDecimal?]
  have h : descomponerDecimal ['4', '5', '.', '3'] =
      some (false, ['4', '5'], ['3']) := by decide
  rw [h]
  have h45 : digitosVal ['4', '5'] = 45 := by decide
  have h3 : digitosVal ['3'] = 3 := by decide
  simp [valorDecimal, h45, h3]
  norm_num

theorem atofM_42_1 : atofM ['4', '2', '.', '1'] = 421 / 10 := by
  rw [atofM, parseDecimal?]
  have h : descomponerDecimal ['4', '2', '.', '1'] =
      some (false, ['4', '2'], ['1']) := by decide
  rw [h]
  have h42 : digitosVal ['4', '2'] = 42 := by decide
  have h1 : digitosVal ['1'] = 1 := by decide
  simp [valorDecimal, h42, h1]
  norm_num

theorem atofM_47_8 : atofM ['4', '7', '.', '8'] = 478 / 10 := by
  rw [atofM, parseDecimal?]
  have h : descomponerDecimal ['4', '7', '.', '8'] =
      some (false, ['4', '7'], ['8']) := by decide
  rw [h]
  have h47 : digitosVal ['4', '7'] = 47 := by decide
  have h8 : digitosVal ['8'] = 8 := by decide
  simp [valorDecimal, h47, h8]
  norm_num

theorem atofM_10 : atofM ['1', '0'] = 10 := by
  rw [atofM, parseDecimal?]
  have h : descomponerDecimal ['1', '0'] = some (false, ['1', '0'], []) := by
    decide
  rw [h]
  have h10 : digitosVal ['1', '0'] = 10 := by decide
  have h0 : digitosVal ([] : List Char) = 0 := by decide
  simp [valorDecimal, h10, h0]

theorem tempDemo_historial :
    tempDemo = ⟨"T-001".data, ⟨[453 / 10, 421 / 10, 478 / 10], 3⟩⟩ := by
  rw [tempDemo]
  have hd1 : "45.3".data = ['4', '5', '.', '3'] := rfl
  have hd2 : "42.1".data = ['4', '2', '.', '1'] := rfl
  have hd3 : "47.8".data = ['4', '7', '.', '8'] := rfl
  rw [hd1, hd2, hd3]
  simp only [SensorTemperatura.agregarLectura, sensorTemperaturaNuevo,
    atofM_45_3, atofM_42_1, atofM_47_8]
  simp only [listaNueva, ListaSensor.insertarAlFinal, List.isEmpty_nil,
    List.isEmpty_cons, if_true, if_false]
  norm_num

/-! Evaluation of the three scenario process calls. -/

theorem tempDemo_paso1 :
    (⟨"T-001".data, ⟨[453 / 10, 421 / 10, 478 / 10], 3⟩⟩ :
        SensorTemperatura).procesarLectura =
      (⟨"T-001".data, ⟨[453 / 10, 478 / 10], 2⟩⟩,
        ReporteTemp.minimoEliminado (421 / 10)) := by
  have hmin : minimoDesde (453 / 10 : ℚ) [421 / 10, 478 / 10] = 421 / 10 := by
    norm_num [minimoDesde]
  have hrem : removeFirst (421 / 10 : ℚ) [453 / 10, 421 / 10, 478 / 10] =
      [453 / 10, 478 / 10] := by
    norm_num [removeFirst]
  unfold SensorTemperatura.procesarLectura
  rw [if_neg (by decide), if_pos (by decide)]
  have he : (⟨[453 / 10, 421 / 10, 478 / 10], (3 : Int)⟩ :
      ListaSensor ℚ).eliminarMinimo =
      (minimoDesde (453 / 10) [421 / 10, 478 / 10],
        ⟨removeFirst (minimoDesde (453 / 10) [421 / 10, 478 / 10])
          [453 / 10, 421 / 10, 478 / 10], 3 - 1⟩) := rfl
  rw [he, hmin, hrem]
  norm_num

theorem tempDemo_paso2 :
    (⟨"T-001".data, ⟨[453 / 10, 478 / 10], 2⟩⟩ :
        SensorTemperatura).procesarLectura =
      (⟨"T-001".data, ⟨[478 / 10], 1⟩⟩,
        ReporteTemp.minimoEliminado (453 / 10)) := by
  have hmin : minimoDesde (453 / 10 : ℚ) [478 / 10] = 453 / 10 := by
    norm_num [minimoDesde]
  have hrem : removeFirst (453 / 10 : ℚ) [453 / 10, 478 / 10] = [478 / 10] := by
    norm_num [removeFirst]
  unfold SensorTemperatura.procesarLectura
  rw [if_neg (by decide), if_pos (by decide)]
  have he : (⟨[453 / 10, 478 / 10], (2 : Int)⟩ : ListaSensor ℚ).eliminarMinimo =
      (minimoDesde (453 / 10) [478 / 10],
        ⟨removeFirst (minimoDesde (453 / 10) [478 / 10])
          [453 / 10, 478 / 10], 2 - 1⟩) := rfl
  rw [he, hmin, hrem]
  norm_num

theorem tempDemo_paso3 :
    (⟨"T-001".data, ⟨[478 / 10], 1⟩⟩ : SensorTemperatura).procesarLectura =
      (⟨"T-001".data, ⟨[478 / 10], 1⟩⟩, ReporteTemp.promedio (478 / 10)) := by
  unfold SensorTemperatura.procesarLectura
  rw [if_neg (by decide), if_neg (by decide)]
  simp only [ListaSensor.calcularPromedio]
  norm_num

/-- C1: one call of the temperature `procesarLectura` does exactly one of
three things, selected by the current state: with an empty sequence it only
reports that there is nothing to process and changes nothing; with more than
one reading it removes exactly the minimum reading (the removed value is
present and minimal, the new chain is the old one minus its earliest
occurrence) and reports it — never a mean in that call; with exactly one
reading it reports that reading as the mean.  Hence after ingesting `45.3`,
`42.1`, `47.8`, three successive calls remove `42.1`, remove `45.3`, and
finally report the mean `47.8`. -/
theorem procesar_temperatura :
    (∀ sen : SensorTemperatura, sen.historial.estaVacia = true →
      sen.procesarLectura = (sen, ReporteTemp.sinLecturas)) ∧
    (∀ sen : SensorTemperatura, sen.historial.estaVacia = false →
      1 < sen.historial.obtenerTamano →
      sen.procesarLectura =
        ({ sen with historial := sen.historial.eliminarMinimo.2 },
          ReporteTemp.minimoEliminado sen.historial.eliminarMinimo.1) ∧
      sen.procesarLectura.1.historial.elems =
        sen.historial.elems.erase sen.historial.eliminarMinimo.1 ∧
      (sen.historial.eliminarMinimo.1 ∈ sen.historial.elems ∧
        ∀ x ∈ sen.historial.elems, sen.historial.eliminarMinimo.1 ≤ x) ∧
      (∀ p, sen.procesarLectura.2 ≠ ReporteTemp.promedio p)) ∧
    (∀ (sen : SensorTemperatura) (x : ℚ), sen.historial.elems = [x] →
      sen.historial.tamano = 1 →
      sen.procesarLectura = (sen, ReporteTemp.promedio x)) ∧
    (tempDemo.procesarLectura.2 = ReporteTemp.minimoEliminado (421 / 10) ∧
      tempDemo.procesarLectura.1.procesarLectura.2 =
        ReporteTemp.minimoEliminado (453 / 10) ∧
      tempDemo.procesarLectura.1.procesarLectura.1.procesarLectura.2 =
        ReporteTemp.promedio (478 / 10) ∧
      tempDemo.procesarLectura.1.procesarLectura.1.procesarLectura.1.historial.elems =
        [478 / 10]) := by
  refine ⟨?_, ?_, ?_, ?_⟩
  · intro sen h
    unfold SensorTemperatura.procesarLectura
    rw [if_pos h]
  · intro sen h1 h2
    obtain ⟨nom, ⟨elems, tam⟩⟩ := sen
    rcases elems with _ | ⟨x, xs⟩
    · simp [ListaSensor.estaVacia] at h1
    · have he : (⟨x :: xs, tam⟩ : ListaSensor ℚ).eliminarMinimo =
          (minimoDesde x xs,
            ⟨removeFirst (minimoDesde x xs) (x :: xs), tam - 1⟩) := rfl
      have hproc : (⟨nom, ⟨x :: xs, tam⟩⟩ : SensorTemperatura).procesarLectura =
          (⟨nom, (⟨x :: xs, tam⟩ : ListaSensor ℚ).eliminarMinimo.2⟩,
            ReporteTemp.minimoEliminado
              (⟨x :: xs, tam⟩ : ListaSensor ℚ).eliminarMinimo.1) := by
        unfold SensorTemperatura.procesarLectura
        rw [if_neg (by simp [ListaSensor.estaVacia]), if_pos h2]
      have hv : minimoDesde x xs ∈ x :: xs := minimoDesde_mem x xs
      have hle := minimoDesde_le x xs
      refine ⟨hproc, ?_, ?_, ?_⟩
      · rw [hproc, he]
        exact removeFirst_eq_erase _ _
      · rw [he]
        refine ⟨hv, ?_⟩
        intro y hy
        rcases List.mem_cons.mp hy with rfl | hy
        · exact hle.1
        · exact hle.2 y hy
      · intro p
        rw [hproc]
        simp
  · intro sen x hx ht
    have hcp : sen.historial.calcularPromedio = x := by
      rw [ListaSensor.calcularPromedio, if_neg (by rw [hx]; simp)]
      rw [hx, ht]
      simp
    unfold SensorTemperatura.procesarLectura
    rw [if_neg (by rw [ListaSensor.estaVacia, hx]; simp),
      if_neg (by rw [ListaSensor.obtenerTamano, ht]; simp), hcp]
  · rw [tempDemo_historial]
    refine ⟨?_, ?_, ?_, ?_⟩
    · rw [tempDemo_paso1]
    · rw [tempDemo_paso1]
      show (⟨"T-001".data, ⟨[453 / 10, 478 / 10], 2⟩⟩ :
          SensorTemperatura).procesarLectura.2 = _
      rw [tempDemo_paso2]
    · rw [tempDemo_paso1]
      show (⟨"T-001".data, ⟨[453 / 10, 478 / 10], 2⟩⟩ :
          SensorTemperatura).procesarLectura.1.procesarLectura.2 = _
      rw [tempDemo_paso2]
      show (⟨"T-001".data, ⟨[478 / 10], 1⟩⟩ :
          SensorTemperatura).procesarLectura.2 = _
      rw [tempDemo_paso3]
    · rw [tempDemo_paso1]
      show (⟨"T-001".data, ⟨[453 / 10, 478 / 10], 2⟩⟩ :
          SensorTemperatura).procesarLectura.1.procesarLectura.1.historial.elems = _
      rw [tempDemo_paso2]
      show (⟨"T-001".data, ⟨[478 / 10], 1⟩⟩ :
          SensorTemperatura).procesarLectura.1.historial.elems = _
      rw [tempDemo_paso3]

/-- Witness for C1: its three conditional branches applied at concrete
sensors — the freshly created `T-001` (empty), the fully ingested demo
sensor (three readings), and a one-reading sensor. -/
theorem procesar_temperatura_testigo :
    ((sensorTemperaturaNuevo ("T-001".data)).historial.estaVacia = true ∧
      (sensorTemperaturaNuevo ("T-001".data)).procesarLectura =
        (sensorTemperaturaNuevo ("T-001".data), ReporteTemp.sinLecturas)) ∧
    (tempDemo.historial.estaVacia = false ∧
      1 < tempDemo.historial.obtenerTamano ∧
      ∀ p, tempDemo.procesarLectura.2 ≠ ReporteTemp.promedio p) ∧
    ((⟨"T".data, ⟨[5], 1⟩⟩ : SensorTemperatura).historial.elems = [5] ∧
      (⟨"T".data, ⟨[5], 1⟩⟩ : SensorTemperatura).historial.tamano = 1 ∧
      (⟨"T".data, ⟨[5], 1⟩⟩ : SensorTemperatura).procesarLectura =
        (⟨"T".data, ⟨[5], 1⟩⟩, ReporteTemp.promedio 5)) :=
  ⟨⟨rfl, procesar_temperatura.1 (sensorTemperaturaNuevo ("T-001".data)) rfl⟩,
    ⟨by decide, by decide,
      (procesar_temperatura.2.1 tempDemo (by decide) (by decide)).2.2.2⟩,
    ⟨rfl, rfl, procesar_temperatura.2.2.1 ⟨"T".data, ⟨[5], 1⟩⟩ 5 rfl rfl⟩⟩

/-- Counterexample to C2 as stated: the line `X,T-001,10` has an
unrecognized kind field, yet when a sensor named `T-001` is already
registered the line is NOT discarded — the reading `10` is appended to that
sensor, so a sensor is modified (the registry count is unchanged, but the
claim also demands that no sensor be modified). -/
theorem tipo_desconocido_contraejemplo :
    procesarLinea ("X,T-001,10".data)
      (gestorNuevo.agregarSensor
        (Sensor.temp (sensorTemperaturaNuevo ("T-001".data)))) =
      gestorNuevo.agregarSensor
        (Sensor.temp ⟨"T-001".data, ⟨[10], 1⟩⟩) ∧
    (Sensor.temp (⟨"T-001".data, ⟨[10], 1⟩⟩ : SensorTemperatura)) ≠
      Sensor.temp (sensorTemperaturaNuevo ("T-001".data)) := by
  constructor
  · have hcampos : camposStrtok ',' ("X,T-001,10".data) =
        ["X".data, "T-001".data, ['1', '0']] := by decide
    rw [procesarLinea, hcampos]
    simp only [List.getElem?_cons_zero, List.getElem?_cons_succ]
    have hb : (gestorNuevo.agregarSensor
        (Sensor.temp (sensorTemperaturaNuevo ("T-001".data)))).buscarSensor
          ("T-001".data) =
        some (Sensor.temp (sensorTemperaturaNuevo ("T-001".data))) := by decide
    rw [hb]
    simp only [GestorSensores.agregarSensor, gestorNuevo]
    simp only [actualizarPrimero, List.nil_append]
    rw [if_pos (by decide)]
    simp only [Sensor.agregarLectura, SensorTemperatura.agregarLectura,
      sensorTemperaturaNuevo, atofM_10]
    simp [listaNueva, ListaSensor.insertarAlFinal]
  · intro h
    simp only [Sensor.temp.injEq, sensorTemperaturaNuevo,
      SensorTemperatura.mk.injEq, ListaSensor.mk.injEq, listaNueva] at h
    exact absurd h.2.1 (by simp)

/-- C2 as amended: the kind check of `procesarLinea` inspects only the FIRST
character of the kind field, and only on the path where the identifier is
not yet registered.  On that path, a first character other than the two
recognized markers makes the line discarded with the registry — count and
sensors — completely unchanged.  When the identifier already names a sensor,
the kind field is never examined: the reading goes to that sensor and the
count stays unchanged. -/
theorem tipo_desconocido_amendado :
    (∀ (g : GestorSensores) (linea tipo id valor : List Char) (c0 : Char)
      (resto : List Char),
      (camposStrtok ',' linea)[0]? = some tipo →
      (camposStrtok ',' linea)[1]? = some id →
      (camposStrtok ',' linea)[2]? = some valor →
      tipo = c0 :: resto → c0 ≠ 'T' → c0 ≠ 'P' →
      g.buscarSensor id = none →
      procesarLinea linea g = g) ∧
    (∀ (g : GestorSensores) (linea tipo id valor : List Char) (s : Sensor),
      (camposStrtok ',' linea)[0]? = some tipo →
      (camposStrtok ',' linea)[1]? = some id →
      (camposStrtok ',' linea)[2]? = some valor →
      g.buscarSensor id = some s →
      (procesarLinea linea g).cantidad = g.cantidad ∧
      (procesarLinea linea g).sensores = actualizarPrimero g.sensores id valor) := by
  constructor
  · intro g linea tipo id valor c0 resto h0 h1 h2 htipo hT hP hb
    rw [procesarLinea, h0, h1, h2]
    simp only
    rw [hb, htipo]
    simp only
    rw [if_neg hT, if_neg hP]
  · intro g linea tipo id valor s h0 h1 h2 hb
    rw [procesarLinea, h0, h1, h2]
    simp only
    rw [hb]
    exact ⟨rfl, rfl⟩

/-- Witness for the amended C2: the unregistered-identifier discard on
`X,Z-1,10` over the empty registry, and the registered-identifier routing of
`X,T-001,10`. -/
theorem tipo_desconocido_amendado_testigo :
    ((camposStrtok ',' ("X,Z-1,10".data))[0]? = some ("X".data) ∧
      gestorNuevo.buscarSensor ("Z-1".data) = none ∧
      procesarLinea ("X,Z-1,10".data) gestorNuevo = gestorNuevo) ∧
    ((gestorNuevo.agregarSensor
        (Sensor.temp (sensorTemperaturaNuevo ("T-001".data)))).buscarSensor
          ("T-001".data) =
        some (Sensor.temp (sensorTemperaturaNuevo ("T-001".data))) ∧
      (procesarLinea ("X,T-001,10".data)
        (gestorNuevo.agregarSensor
          (Sensor.temp (sensorTemperaturaNuevo ("T-001".data))))).cantidad =
        (gestorNuevo.agregarSensor
          (Sensor.temp (sensorTemperaturaNuevo ("T-001".data)))).cantidad) :=
  ⟨⟨by decide, by decide,
      tipo_desconocido_amendado.1 gestorNuevo ("X,Z-1,10".data) ("X".data)
        ("Z-1".data) ("10".data) 'X' [] (by decide) (by decide) (by decide)
        rfl (by decide) (by decide) (by decide)⟩,
    ⟨by decide,
      (tipo_desconocido_amendado.2
        (gestorNuevo.agregarSensor
          (Sensor.temp (sensorTemperaturaNuevo ("T-001".data))))
        ("X,T-001,10".data) ("X".data) ("T-001".data) ("10".data)
        (Sensor.temp (sensorTemperaturaNuevo ("T-001".data)))
        (by decide) (by decide) (by decide) (by decide)).1⟩⟩

/-! Heap-model lemmas: chains, framing, and the traversals. -/

theorem escribir_eq {α : Type} (m : Nat → Option (Celda α)) (a : Nat)
    (c : Option (Celda α)) : escribir m a c a = c := by
  simp [escribir]

theorem escribir_ne {α : Type} (m : Nat → Option (Celda α)) (a b : Nat)
    (c : Option (Celda α)) (h : b ≠ a) : escribir m a c b = m b := by
  simp [escribir, h]

theorem cadena_mem_lt {α : Type} {M : Memoria α} {p : Option Nat}
    {as : List Nat} {vs : List α} (hM : BuenaMem M)
    (h : Cadena M.mem p as vs) : ∀ a ∈ as, a < M.prox := by
  induction h with
  | vacia => simp
  | nodo hm hc ih =>
      rename_i a v p' as' vs'
      intro b hb
      rcases List.mem_cons.mp hb with rfl | hb
      · by_contra hge
        rw [hM b (by omega)] at hm
        exact absurd hm (by simp)
      · exact ih b hb

theorem cadena_frame {α : Type} {m m' : Nat → Option (Celda α)}
    {p : Option Nat} {as : List Nat} {vs : List α}
    (hagree : ∀ a ∈ as, m' a = m a) (h : Cadena m p as vs) :
    Cadena m' p as vs := by
  induction h with
  | vacia => exact Cadena.vacia
  | nodo hm hc ih =>
      rename_i a v p' as' vs'
      refine Cadena.nodo ?_ (ih (fun b hb => hagree b (by simp [hb])))
      rw [hagree a (by simp)]
      exact hm

theorem cadena_longitudes {α : Type} {m : Nat → Option (Celda α)}
    {p : Option Nat} {as : List Nat} {vs : List α} (h : Cadena m p as vs) :
    vs.length = as.length := by
  induction h with
  | vacia => rfl
  | nodo _ _ ih => simp [ih]

theorem cadena_ultimo {α : Type} {m : Nat → Option (Celda α)} {p : Option Nat}
    {as : List Nat} {vs : List α} (h : Cadena m p as vs) (hne : as ≠ []) :
    ∃ u d, as.getLast? = some u ∧ vs.getLast? = some d ∧
      m u = some (d, none) := by
  induction h with
  | vacia => exact absurd rfl hne
  | nodo hm hc ih =>
      rename_i a v p' as' vs'
      rcases as' with _ | ⟨b, as''⟩
      · cases hc
        exact ⟨a, v, rfl, rfl, hm⟩
      · rcases ih (by simp) with ⟨u, d, h1, h2, h3⟩
        cases hc with
        | nodo hm' hc' =>
            refine ⟨u, d, ?_, ?_, h3⟩
            · rw [List.getLast?_cons_cons]
              exact h1
            · rw [List.getLast?_cons_cons]
              exact h2

theorem buscarUltimo_spec {α : Type} {m : Nat → Option (Celda α)} :
    ∀ (fuel : Nat) {c : Nat} {as : List Nat} {vs : List α},
    Cadena m (some c) as vs → as.length ≤ fuel + 1 →
    as.getLast? = some (buscarUltimo m fuel c) := by
  intro fuel
  induction fuel with
  | zero =>
      intro c as vs h hlen
      cases h with
      | nodo hm hc =>
          rename_i v p' as' vs'
          rcases as' with _ | ⟨b, as''⟩
          · simp [buscarUltimo]
          · simp at hlen
  | succ fuel ih =>
      intro c as vs h hlen
      cases h with
      | nodo hm hc =>
          rename_i v p' as' vs'
          rcases as' with _ | ⟨b, as''⟩
          · cases hc
            simp [buscarUltimo, hm]
          · cases hc with
            | nodo hm' hc' =>
                have hrec := ih (Cadena.nodo hm' hc') (by
                  simp at hlen ⊢
                  omega)
                rw [List.getLast?_cons_cons]
                rw [hrec]
                simp only [buscarUltimo, hm]

theorem mem_de_getLast? {α : Type} {l : List α} {a : α}
    (h : l.getLast? = some a) : a ∈ l := by
  rcases List.mem_getLast?_eq_getLast (Option.mem_def.mpr h) with ⟨hne, rfl⟩
  exact List.getLast_mem hne

theorem cadena_snoc {α : Type} {m : Nat → Option (Celda α)} {p : Option Nat}
    {as : List Nat} {vs : List α} (h : Cadena m p as vs) :
    as.Nodup → ∀ (addr : Nat), addr ∉ as → ∀ (x : α) (u : Nat) (d : α),
    as.getLast? = some u → vs.getLast? = some d →
    Cadena (escribir (escribir m addr (some (x, none))) u (some (d, some addr)))
      p (as ++ [addr]) (vs ++ [x]) := by
  induction h with
  | vacia =>
      intro _ addr _ x u d hu _
      simp at hu
  | nodo hm hc ih =>
      rename_i a v p' as' vs'
      intro hnd addr haddr x u d hu hd
      rcases as' with _ | ⟨b, as''⟩
      · cases hc
        simp only [List.getLast?_singleton, Option.some.injEq] at hu hd
        subst hu
        subst hd
        have hne : addr ≠ a := fun hcon => haddr (by simp [hcon])
        refine Cadena.nodo ?_ (Cadena.nodo ?_ Cadena.vacia)
        · rw [escribir_eq]
        · rw [escribir_ne _ _ _ _ hne, escribir_eq]
      · cases hc with
        | nodo hm' hc' =>
            rename_i vb pb vsb
            have hnd' : (b :: as'').Nodup := (List.nodup_cons.mp hnd).2
            have hanotin : a ∉ b :: as'' := (List.nodup_cons.mp hnd).1
            have haddr' : addr ∉ b :: as'' := fun hcon => haddr (by simp [hcon])
            rw [List.getLast?_cons_cons] at hu hd
            have hrec := ih hnd' addr haddr' x u d hu hd
            have hau : a ≠ u := by
              intro hcon
              subst hcon
              exact hanotin (mem_de_getLast? hu)
            have haaddr : a ≠ addr := fun hcon => haddr (by simp [hcon])
            refine Cadena.nodo ?_ hrec
            rw [escribir_ne _ _ _ _ hau, escribir_ne _ _ _ _ haaddr]
            exact hm

theorem insertarAlFinalH_spec {α : Type} {M : Memoria α} {l : ListaH}
    {as : List Nat} {vs : List α} (hM : BuenaMem M)
    (hl : ListaValida M l as vs) (v : α) :
    Cadena (insertarAlFinalH M l v).1.mem (insertarAlFinalH M l v).2.cabeza
        (as ++ [M.prox]) (vs ++ [v]) ∧
    (insertarAlFinalH M l v).2.tamano = l.tamano + 1 ∧
    (insertarAlFinalH M l v).1.prox = M.prox + 1 ∧
    (∀ b, b ∉ as → b ≠ M.prox → (insertarAlFinalH M l v).1.mem b = M.mem b) ∧
    BuenaMem (insertarAlFinalH M l v).1 ∧
    ListaValida (insertarAlFinalH M l v).1 (insertarAlFinalH M l v).2
      (as ++ [M.prox]) (vs ++ [v]) := by
  obtain ⟨hc, ht, hnd, hlen⟩ := hl
  have hlt : ∀ a ∈ as, a < M.prox := cadena_mem_lt hM hc
  have hproxnotin : M.prox ∉ as := fun hcon => absurd (hlt _ hcon) (by omega)
  rcases hcab : l.cabeza with _ | c
  · rw [hcab] at hc
    cases hc
    have hred : insertarAlFinalH M l v =
        (⟨escribir M.mem M.prox (some (v, none)), M.prox + 1⟩,
          ⟨some M.prox, l.tamano + 1⟩) := by
      rw [insertarAlFinalH, hcab]
    rw [hred]
    refine ⟨?_, rfl, rfl, ?_, ?_, ?_, ?_, ?_, ?_⟩
    · exact Cadena.nodo (escribir_eq _ _ _) Cadena.vacia
    · intro b _ hb
      exact escribir_ne _ _ _ _ hb
    · intro a ha
      have ha' : M.prox + 1 ≤ a := ha
      show escribir M.mem M.prox (some (v, none)) a = none
      rw [escribir_ne _ _ _ _ (by omega)]
      exact hM a (by omega)
    · exact Cadena.nodo (escribir_eq _ _ _) Cadena.vacia
    · have ht0 : l.tamano = 0 := by simpa using ht
      show l.tamano + 1 = _
      simp [ht0]
    · simp
    · simp
  · rw [hcab] at hc
    have hnil : as ≠ [] := by
      intro hcon
      rw [hcon] at hc
      cases hc
    have htoNat : (l.tamano.toNat : Int) = l.tamano := by
      rw [ht]
      simp
    have hfuel : as.length ≤ l.tamano.toNat + 1 := by
      have : (l.tamano.toNat : Int) = (as.length : Int) := by rw [htoNat, ht]
      omega
    have hu := buscarUltimo_spec l.tamano.toNat hc hfuel
    rcases cadena_ultimo hc hnil with ⟨u', d, hu', hd, hmu⟩
    rw [hu] at hu'
    have huu : buscarUltimo M.mem l.tamano.toNat c = u' := by
      exact Option.some.inj hu'
    rw [huu] at hu
    have hulow : u' < M.prox := hlt u' (mem_de_getLast? hu)
    have hred : insertarAlFinalH M l v =
        (⟨escribir (escribir M.mem M.prox (some (v, none))) u'
            (some (d, some M.prox)), M.prox + 1⟩,
          ⟨l.cabeza, l.tamano + 1⟩) := by
      rw [insertarAlFinalH, hcab]
      simp only [huu, hmu]
    rw [hred]
    have hchain := cadena_snoc hc hnd M.prox hproxnotin v u' d hu hd
    refine ⟨?_, rfl, rfl, ?_, ?_, ?_, ?_, ?_, ?_⟩
    · rw [hcab]
      exact hchain
    · intro b hb hbprox
      have hbu : b ≠ u' := by
        intro hcon
        exact hb (by rw [hcon]; exact mem_de_getLast? hu)
      show escribir (escribir M.mem M.prox (some (v, none))) u'
          (some (d, some M.prox)) b = M.mem b
      rw [escribir_ne _ _ _ _ hbu]
      exact escribir_ne _ _ _ _ hbprox
    · intro a ha
      have ha' : M.prox + 1 ≤ a := ha
      show escribir (escribir M.mem M.prox (some (v, none))) u'
          (some (d, some M.prox)) a = none
      rw [escribir_ne _ _ _ _ (by omega), escribir_ne _ _ _ _ (by omega)]
      exact hM a (by omega)
    · rw [hcab]
      exact hchain
    · show l.tamano + 1 = _
      rw [ht]
      simp
    · simp [List.nodup_append, hnd, hproxnotin]
    · simp [hlen]

theorem leerValores_spec {α : Type} {m : Nat → Option (Celda α)} :
    ∀ (fuel : Nat) {p : Option Nat} {as : List Nat} {vs : List α},
    Cadena m p as vs → as.length ≤ fuel → leerValores m fuel p = vs := by
  intro fuel
  induction fuel with
  | zero =>
      intro p as vs h hlen
      cases h with
      | vacia => rfl
      | nodo hm hc => simp at hlen
  | succ fuel ih =>
      intro p as vs h hlen
      cases h with
      | vacia => rfl
      | nodo hm hc =>
          simp only [leerValores, hm]
          rw [ih hc (by simp at hlen; omega)]

theorem copia_bucle {α : Type} :
    ∀ (ds : List α) (M : Memoria α) (B : ListaH) (bs : List Nat) (ws : List α),
    BuenaMem M → ListaValida M B bs ws →
    ∃ cs : List Nat,
      ListaValida (ds.foldl (fun p d => insertarAlFinalH p.1 p.2 d) (M, B)).1
        (ds.foldl (fun p d => insertarAlFinalH p.1 p.2 d) (M, B)).2
        (bs ++ cs) (ws ++ ds) ∧
      (∀ c ∈ cs, M.prox ≤ c) ∧
      BuenaMem (ds.foldl (fun p d => insertarAlFinalH p.1 p.2 d) (M, B)).1 ∧
      M.prox ≤ (ds.foldl (fun p d => insertarAlFinalH p.1 p.2 d) (M, B)).1.prox ∧
      (∀ b, b ∉ bs → b < M.prox →
        (ds.foldl (fun p d => insertarAlFinalH p.1 p.2 d) (M, B)).1.mem b =
          M.mem b) := by
  intro ds
  induction ds with
  | nil =>
      intro M B bs ws hM hB
      exact ⟨[], by simpa using hB, by simp, hM, le_refl _, fun b _ _ => rfl⟩
  | cons d ds ih =>
      intro M B bs ws hM hB
      obtain ⟨_, _, hprox1, hframe1, hM1, hval1⟩ := insertarAlFinalH_spec hM hB d
      rcases ih (insertarAlFinalH M B d).1 (insertarAlFinalH M B d).2
          (bs ++ [M.prox]) (ws ++ [d]) hM1 hval1 with
        ⟨cs', hval', hge', hM', hle', hframe'⟩
      have heta : (((insertarAlFinalH M B d).1, (insertarAlFinalH M B d).2) :
          Memoria α × ListaH) = insertarAlFinalH M B d := rfl
      rw [heta] at hval' hM' hle' hframe'
      have hassoc : (bs ++ [M.prox]) ++ cs' = bs ++ (M.prox :: cs') := by simp
      have hassoc2 : (ws ++ [d]) ++ ds = ws ++ (d :: ds) := by simp
      rw [hassoc, hassoc2] at hval'
      refine ⟨M.prox :: cs', ?_, ?_, ?_, ?_, ?_⟩
      · simpa only [List.foldl_cons] using hval'
      · intro c hc
        rcases List.mem_cons.mp hc with rfl | hc
        · exact le_refl _
        · have := hge' c hc
          rw [hprox1] at this
          omega
      · simpa only [List.foldl_cons] using hM'
      · have h1 := hle'
        rw [hprox1] at h1
        simp only [List.foldl_cons]
        omega
      · intro b hb hblt
        simp only [List.foldl_cons]
        have h1 : (ds.foldl (fun p d => insertarAlFinalH p.1 p.2 d)
            (insertarAlFinalH M B d)).1.mem b = (insertarAlFinalH M B d).1.mem b := by
          have hbnotin : b ∉ bs ++ [M.prox] := by
            intro hcon
            rcases List.mem_append.mp hcon with hcon | hcon
            · exact hb hcon
            · simp at hcon
              omega
          have hblt1 : b < (insertarAlFinalH M B d).1.prox := by
            rw [hprox1]
            omega
          exact hframe' b hbnotin hblt1
        rw [h1]
        exact hframe1 b hb (by omega)

theorem copiaH_spec {α : Type} {M : Memoria α} {A : ListaH} {as : List Nat}
    {vs : List α} (hM : BuenaMem M) (hA : ListaValida M A as vs) :
    ∃ bs : List Nat,
      ListaValida (copiaH M A).1 (copiaH M A).2 bs vs ∧
      (∀ b ∈ bs, M.prox ≤ b) ∧
      (∀ a ∈ as, a < M.prox) ∧
      List.Disjoint as bs ∧
      Cadena (copiaH M A).1.mem A.cabeza as vs ∧
      BuenaMem (copiaH M A).1 ∧
      (copiaH M A).2.tamano = A.tamano ∧
      (∀ b, b < M.prox → (copiaH M A).1.mem b = M.mem b) := by
  obtain ⟨hc, ht, hnd, hlen⟩ := hA
  have hlt := cadena_mem_lt hM hc
  have hfuel : as.length ≤ A.tamano.toNat := by omega
  have hvals : leerValores M.mem A.tamano.toNat A.cabeza = vs :=
    leerValores_spec _ hc hfuel
  have hred : copiaH M A =
      vs.foldl (fun p d => insertarAlFinalH p.1 p.2 d) (M, ⟨none, 0⟩) := by
    rw [copiaH, hvals]
  rcases copia_bucle vs M ⟨none, 0⟩ [] [] hM
      ⟨Cadena.vacia, rfl, List.nodup_nil, rfl⟩ with
    ⟨cs, hval, hge, hM', hle, hframe⟩
  rw [hred]
  obtain ⟨hvc, hvt, hvnd, hvlen⟩ := hval
  refine ⟨cs, ⟨by simpa using hvc, by simpa using hvt, by simpa using hvnd,
      by simpa using hvlen⟩, hge, hlt, ?_, ?_, hM', ?_,
    fun b hb => hframe b (by simp) hb⟩
  · intro a ha hb
    have h1 := hge a hb
    have h2 := hlt a ha
    omega
  · exact cadena_frame (fun a ha => hframe a (by simp) (hlt a ha)) hc
  · have h1 : ((vs.foldl (fun p d => insertarAlFinalH p.1 p.2 d)
        (M, ⟨none, 0⟩)).2.tamano) = (([] ++ cs : List Nat).length : Int) := hvt
    have h2 : ([] ++ vs : List α).length = ([] ++ cs : List Nat).length := hvlen
    simp only [List.nil_append] at h1 h2
    rw [h1, ht]
    omega

theorem liberarCadena_spec {α : Type} :
    ∀ (fuel : Nat) (m : Nat → Option (Celda α)) (p : Option Nat)
      (as : List Nat) (vs : List α),
    Cadena m p as vs → as.Nodup → as.length ≤ fuel →
    (∀ a ∈ as, liberarCadena m fuel p a = none) ∧
    (∀ b, b ∉ as → liberarCadena m fuel p b = m b) := by
  intro fuel
  induction fuel with
  | zero =>
      intro m p as vs h hnd hlen
      cases h with
      | vacia => exact ⟨by simp, fun b _ => rfl⟩
      | nodo hm hc => simp at hlen
  | succ fuel ih =>
      intro m p as vs h hnd hlen
      cases h with
      | vacia => exact ⟨by simp, fun b _ => rfl⟩
      | nodo hm hc =>
          rename_i a v p' as' vs'
          have hnotin : a ∉ as' := (List.nodup_cons.mp hnd).1
          have hchain' : Cadena (escribir m a none) p' as' vs' :=
            cadena_frame (fun b hb => escribir_ne _ _ _ _
              (by intro hcon; subst hcon; exact hnotin hb)) hc
          have hred : liberarCadena m (fuel + 1) (some a) =
              liberarCadena (escribir m a none) fuel p' := by
            simp only [liberarCadena, hm]
          rcases ih (escribir m a none) p' as' vs' hchain'
              (List.nodup_cons.mp hnd).2 (by simp at hlen; omega) with ⟨h1, h2⟩
          rw [hred]
          constructor
          · intro x hx
            rcases List.mem_cons.mp hx with rfl | hx
            · rw [h2 x hnotin]
              exact escribir_eq _ _ _
            · exact h1 x hx
          · intro b hb
            have hba : b ≠ a := fun hcon => hb (by simp [hcon])
            rw [h2 b (fun hcon => hb (by simp [hcon]))]
            exact escribir_ne _ _ _ _ hba

theorem buscarMinH_en {α : Type} [LinearOrder α] {m : Nat → Option (Celda α)}
    {S : List Nat} :
    ∀ (fuel : Nat) (p : Option Nat) (asr : List Nat) (vsr : List α)
      (minA : Nat) (minV : α) (ant antMin : Option Nat),
    Cadena m p asr vsr → (∀ x ∈ asr, x ∈ S) → minA ∈ S →
    (ant = none ∨ ∃ q ∈ S, ant = some q) →
    (antMin = none ∨ ∃ q ∈ S, antMin = some q) →
    (buscarMinH m fuel p minA minV ant antMin).1 ∈ S ∧
    ((buscarMinH m fuel p minA minV ant antMin).2 = none ∨
      ∃ q ∈ S, (buscarMinH m fuel p minA minV ant antMin).2 = some q) := by
  intro fuel
  induction fuel with
  | zero =>
      intro p asr vsr minA minV ant antMin _ _ hminA _ hantMin
      exact ⟨hminA, hantMin⟩
  | succ fuel ih =>
      intro p asr vsr minA minV ant antMin h hsub hminA hant hantMin
      cases h with
      | vacia => exact ⟨hminA, hantMin⟩
      | nodo hm hc =>
          rename_i a v p' asr' vsr'
          have ha : a ∈ S := hsub a (by simp)
          have hsub' : ∀ x ∈ asr', x ∈ S := fun x hx => hsub x (by simp [hx])
          have hred : buscarMinH m (fuel + 1) (some a) minA minV ant antMin =
              if v < minV then buscarMinH m fuel p' a v (some a) ant
              else buscarMinH m fuel p' minA minV (some a) antMin := by
            simp only [buscarMinH, hm]
          rw [hred]
          by_cases hv : v < minV
          · rw [if_pos hv]
            exact ih p' asr' vsr' a v (some a) ant hc hsub' ha
              (Or.inr ⟨a, ha, rfl⟩) hant
          · rw [if_neg hv]
            exact ih p' asr' vsr' minA minV (some a) antMin hc hsub' hminA
              (Or.inr ⟨a, ha, rfl⟩) hantMin

theorem eliminarMinimoH_frame {α : Type} [LinearOrder α] {M : Memoria α}
    {A : ListaH} {as : List Nat} {vs : List α} (hM : BuenaMem M)
    (hA : ListaValida M A as vs) :
    (eliminarMinimoH M A).1.prox = M.prox ∧
    (∀ b, b ∉ as → (eliminarMinimoH M A).1.mem b = M.mem b) ∧
    BuenaMem (eliminarMinimoH M A).1 := by
  obtain ⟨hc, ht, hnd, hlen⟩ := hA
  have hlt := cadena_mem_lt hM hc
  rcases hcab : A.cabeza with _ | c
  · have hred : eliminarMinimoH M A = (M, A) := by rw [eliminarMinimoH, hcab]
    rw [hred]
    exact ⟨rfl, fun b _ => rfl, hM⟩
  · rw [hcab] at hc
    have hmc : ∃ cv p0, M.mem c = some (cv, p0) := by
      cases hc with
      | nodo hm hc' => exact ⟨_, _, hm⟩
    rcases hmc with ⟨cv, p0, hmc⟩
    have hcmem : c ∈ as := by
      cases hc with
      | nodo hm hc' => simp
    have hbm := buscarMinH_en (S := as) (A.tamano.toNat + 1) (some c) as vs c cv
      none none hc (fun x hx => hx) hcmem (Or.inl rfl) (Or.inl rfl)
    have hred : eliminarMinimoH M A =
        (let r := buscarMinH M.mem (A.tamano.toNat + 1) (some c) c cv none none
         let minSig : Option Nat :=
           match M.mem r.1 with
           | some (_, s) => s
           | none => none
         match r.2 with
         | none => (⟨escribir M.mem r.1 none, M.prox⟩, ⟨minSig, A.tamano - 1⟩)
         | some p =>
             match M.mem p with
             | some (pd, _) =>
                 (⟨escribir (escribir M.mem p (some (pd, minSig))) r.1 none,
                     M.prox⟩,
                   ⟨A.cabeza, A.tamano - 1⟩)
             | none => (M, A)) := by
      rw [eliminarMinimoH, hcab]
      simp only [hmc]
    rcases hbm with ⟨hmin1, hmin2⟩
    rcases hmin2 with h2 | ⟨q, hq, h2⟩
    · rw [hred]
      simp only [h2]
      refine ⟨by trivial, ?_, ?_⟩
      · intro b hb
        show escribir M.mem (buscarMinH M.mem (A.tamano.toNat + 1) (some c) c cv
            none none).1 none b = M.mem b
        exact escribir_ne _ _ _ _ (fun hcon => hb (hcon ▸ hmin1))
      · intro a ha
        have ha' : M.prox ≤ a := ha
        show escribir M.mem (buscarMinH M.mem (A.tamano.toNat + 1) (some c) c cv
            none none).1 none a = none
        by_cases hae : a = (buscarMinH M.mem (A.tamano.toNat + 1) (some c) c cv
            none none).1
        · rw [hae, escribir_eq]
        · rw [escribir_ne _ _ _ _ hae]
          exact hM a ha'
    · rw [hred]
      simp only [h2]
      rcases hmq : M.mem q with _ | ⟨pd, ps⟩
      · simp only [hmq]
        exact ⟨by trivial, fun b _ => by trivial, hM⟩
      · simp only [hmq]
        refine ⟨by trivial, ?_, ?_⟩
        · intro b hb
          have hbq : b ≠ q := fun hcon => hb (hcon ▸ hq)
          have hbmin : b ≠ (buscarMinH M.mem (A.tamano.toNat + 1) (some c) c cv
              none none).1 := fun hcon => hb (hcon ▸ hmin1)
          show escribir (escribir M.mem q _) _ none b = M.mem b
          rw [escribir_ne _ _ _ _ hbmin, escribir_ne _ _ _ _ hbq]
        · intro a ha
          have ha' : M.prox ≤ a := ha
          have haq : a ≠ q := by
            have := hlt q hq
            omega
          show escribir (escribir M.mem q _) _ none a = none
          by_cases hae : a = (buscarMinH M.mem (A.tamano.toNat + 1) (some c) c cv
              none none).1
          · rw [hae, escribir_eq]
          · rw [escribir_ne _ _ _ _ hae, escribir_ne _ _ _ _ haq]
            exact hM a ha'

theorem asignacionH_spec {α : Type} {M : Memoria α} {dest otra : ListaH}
    {ds : List Nat} {ws : List α} {as : List Nat} {vs : List α}
    (hM : BuenaMem M) (hdest : ListaValida M dest ds ws)
    (hotra : ListaValida M otra as vs) (hdisj : List.Disjoint ds as) :
    (∀ d ∈ ds, (asignacionH M dest otra).1.mem d = none) ∧
    (∃ bs : List Nat,
      ListaValida (asignacionH M dest otra).1 (asignacionH M dest otra).2 bs vs ∧
      (∀ b ∈ bs, M.prox ≤ b) ∧
      List.Disjoint as bs ∧
      Cadena (asignacionH M dest otra).1.mem otra.cabeza as vs) := by
  obtain ⟨hcd, htd, hndd, hlend⟩ := hdest
  obtain ⟨hco, hto, hndo, hleno⟩ := hotra
  have hltd := cadena_mem_lt hM hcd
  have hflen : ds.length ≤ dest.tamano.toNat + 1 := by omega
  rcases liberarCadena_spec (dest.tamano.toNat + 1) M.mem dest.cabeza ds ws hcd
      hndd hflen with ⟨hfree, hkeep⟩
  have hM1 : BuenaMem (⟨liberarCadena M.mem (dest.tamano.toNat + 1) dest.cabeza,
      M.prox⟩ : Memoria α) := by
    intro a ha
    by_cases hmem : a ∈ ds
    · exact hfree a hmem
    · show liberarCadena M.mem (dest.tamano.toNat + 1) dest.cabeza a = none
      rw [hkeep a hmem]
      exact hM a ha
  have hco1 : Cadena (liberarCadena M.mem (dest.tamano.toNat + 1) dest.cabeza)
      otra.cabeza as vs :=
    cadena_frame (fun a ha => hkeep a (fun hcon => hdisj hcon ha)) hco
  have hval1 : ListaValida (⟨liberarCadena M.mem (dest.tamano.toNat + 1)
      dest.cabeza, M.prox⟩ : Memoria α) otra as vs := ⟨hco1, hto, hndo, hleno⟩
  have hred : asignacionH M dest otra =
      copiaH ⟨liberarCadena M.mem (dest.tamano.toNat + 1) dest.cabeza, M.prox⟩
        otra := rfl
  rcases copiaH_spec hM1 hval1 with
    ⟨bs, hvalB, hgeB, hltA, hdisjB, hintact, hMB, htB, hframeB⟩
  rw [hred]
  constructor
  · intro d hd
    have hdlt : d < M.prox := hltd d hd
    rw [hframeB d hdlt]
    exact hfree d hd
  · exact ⟨bs, hvalB, hgeB, hdisjB, hintact⟩

/-- C5: copy construction and assignment of `ListaSensor` produce deep,
structurally independent copies.  In the heap model of the node store: the
copy constructor yields a list whose chain holds the same values in the same
order at a set of node addresses disjoint from the source's (no sharing),
with the source chain intact; mutating either one of two disjoint valid
lists — by `insertarAlFinal` or `eliminarMinimo` — leaves the other's chain
(its rendered contents) intact, and its header (size) is a separate value
that the operation does not touch; and `operator=` first frees every node of
the destination's old chain (those addresses are unallocated in the final
store) and then deep-copies the source, again onto fresh disjoint addresses,
with the source intact. -/
theorem copia_profunda :
    (∀ (α : Type) (M : Memoria α) (A : ListaH) (as : List Nat) (vs : List α),
      BuenaMem M → ListaValida M A as vs →
      ∃ bs : List Nat,
        ListaValida (copiaH M A).1 (copiaH M A).2 bs vs ∧
        (copiaH M A).2.tamano = A.tamano ∧
        List.Disjoint as bs ∧
        Cadena (copiaH M A).1.mem A.cabeza as vs) ∧
    (∀ (α : Type) (M : Memoria α) (A B : ListaH) (as bs : List Nat)
      (vs ws : List α) (v : α),
      BuenaMem M → ListaValida M A as vs → ListaValida M B bs ws →
      List.Disjoint as bs →
      Cadena (insertarAlFinalH M A v).1.mem B.cabeza bs ws) ∧
    (∀ (α : Type) [LinearOrder α] (M : Memoria α) (A B : ListaH)
      (as bs : List Nat) (vs ws : List α),
      BuenaMem M → ListaValida M A as vs → ListaValida M B bs ws →
      List.Disjoint as bs →
      Cadena (eliminarMinimoH M A).1.mem B.cabeza bs ws) ∧
    (∀ (α : Type) (M : Memoria α) (dest otra : ListaH) (ds : List Nat)
      (ws : List α) (as : List Nat) (vs : List α),
      BuenaMem M → ListaValida M dest ds ws → ListaValida M otra as vs →
      List.Disjoint ds as →
      (∀ d ∈ ds, (asignacionH M dest otra).1.mem d = none) ∧
      ∃ bs : List Nat,
        ListaValida (asignacionH M dest otra).1 (asignacionH M dest otra).2
          bs vs ∧
        List.Disjoint as bs ∧
        Cadena (asignacionH M dest otra).1.mem otra.cabeza as vs) := by
  refine ⟨?_, ?_, ?_, ?_⟩
  · intro α M A as vs hM hA
    rcases copiaH_spec hM hA with
      ⟨bs, hval, hge, hlt, hdisj, hintact, hMB, htB, _⟩
    exact ⟨bs, hval, htB, hdisj, hintact⟩
  · intro α M A B as bs vs ws v hM hA hB hdisj
    obtain ⟨_, _, _, hframe, _, _⟩ := insertarAlFinalH_spec hM hA v
    obtain ⟨hcB, _, _, _⟩ := hB
    have hltB := cadena_mem_lt hM hcB
    refine cadena_frame (fun b hb => ?_) hcB
    exact hframe b (fun hcon => hdisj hcon hb) (by have := hltB b hb; omega)
  · intro α _ M A B as bs vs ws hM hA hB hdisj
    obtain ⟨_, hframe, _⟩ := eliminarMinimoH_frame hM hA
    obtain ⟨hcB, _, _, _⟩ := hB
    refine cadena_frame (fun b hb => ?_) hcB
    exact hframe b (fun hcon => hdisj hcon hb)
  · intro α M dest otra ds ws as vs hM hdest hotra hdisj
    rcases asignacionH_spec hM hdest hotra hdisj with ⟨hfree, bs, hval, hge, hdisjB, hintact⟩
    exact ⟨hfree, bs, hval, hdisjB, hintact⟩

/-- Witness for C5 on a concrete store: the two-node list `7, 5` and the
disjoint one-node list `9`, copied, mutated and assigned. -/
theorem copia_profunda_testigo :
    BuenaMem memDemo ∧
    ListaValida memDemo listaDemoA [0, 1] [7, 5] ∧
    ListaValida memDemo listaDemoB [2] [9] ∧
    List.Disjoint [0, 1] [2] ∧
    (∃ bs : List Nat,
      ListaValida (copiaH memDemo listaDemoA).1 (copiaH memDemo listaDemoA).2
        bs [7, 5] ∧
      (copiaH memDemo listaDemoA).2.tamano = listaDemoA.tamano ∧
      List.Disjoint [0, 1] bs ∧
      Cadena (copiaH memDemo listaDemoA).1.mem listaDemoA.cabeza [0, 1] [7, 5]) ∧
    Cadena (insertarAlFinalH memDemo listaDemoA 3).1.mem listaDemoB.cabeza
      [2] [9] ∧
    Cadena (eliminarMinimoH memDemo listaDemoA).1.mem listaDemoB.cabeza
      [2] [9] ∧
    ((∀ d ∈ [0, 1], (asignacionH memDemo listaDemoA listaDemoB).1.mem d = none) ∧
      ∃ bs : List Nat,
        ListaValida (asignacionH memDemo listaDemoA listaDemoB).1
          (asignacionH memDemo listaDemoA listaDemoB).2 bs [9] ∧
        List.Disjoint [2] bs ∧
        Cadena (asignacionH memDemo listaDemoA listaDemoB).1.mem
          listaDemoB.cabeza [2] [9]) := by
  have hM : BuenaMem memDemo := by
    intro a ha
    have ha' : 3 ≤ a := ha
    show (if a = 0 then some ((7 : ℤ), some 1) else if a = 1 then some (5, none)
      else if a = 2 then some (9, none) else none) = none
    rw [if_neg (by omega), if_neg (by omega), if_neg (by omega)]
  have hA : ListaValida memDemo listaDemoA [0, 1] [7, 5] :=
    ⟨Cadena.nodo rfl (Cadena.nodo rfl Cadena.vacia), rfl, by decide, rfl⟩
  have hB : ListaValida memDemo listaDemoB [2] [9] :=
    ⟨Cadena.nodo rfl Cadena.vacia, rfl, by decide, rfl⟩
  have hdisj : List.Disjoint [0, 1] [2] := by
    intro a ha hb
    simp at ha hb
    omega
  exact ⟨hM, hA, hB, hdisj,
    (copia_profunda.1 ℤ memDemo listaDemoA [0, 1] [7, 5] hM hA).imp
      (fun bs h => ⟨h.1, h.2.1, h.2.2.1, h.2.2.2⟩),
    copia_profunda.2.1 ℤ memDemo listaDemoA listaDemoB [0, 1] [2] [7, 5] [9] 3
      hM hA hB hdisj,
    copia_profunda.2.2.1 ℤ memDemo listaDemoA listaDemoB [0, 1] [2] [7, 5] [9]
      hM hA hB hdisj,
    copia_profunda.2.2.2 ℤ memDemo listaDemoA listaDemoB [0, 1] [7, 5] [2] [9]
      hM hA hB hdisj⟩

end SensoresIoT
